import Mathlib

/-!
Verification of the channel-group core of `xbmc/pvr/channels/PVRChannelGroup.cpp`
(class `CPVRChannelGroup`), together with the member data model from
`PVRChannelGroupMember.h`.

Shallow embedding conventions:
* `std::shared_ptr` aliasing between the keyed map `m_members` and the ordered
  sequence `m_sortedMembers` is modelled by duplicating every write through one
  view onto the other view, exactly where the C++ code either writes both views
  explicitly (e.g. `Renumber`) or writes a shared object visible from both.
* `std::map` is modelled as an association list; `insert` is a no-op on an
  existing key and `erase` removes the entries with the given key, as for the
  unique-key C++ map.
* External collaborators (settings, database, backend clients, the backend
  fetch) are modelled as an explicit environment record `Env`.
* The member-level dirty flag `m_bChanged` of `CPVRChannelGroupMember` is not
  modelled: its setters live in `PVRChannelGroupMember.cpp`, which is not part
  of the sources, and no verified property reads it.
-/

namespace PVR

/-- Modelled from the spec: `CPVRChannelNumber` (its header is not among the
sources). A pair (major, sub) of unsigned integers; a number with major 0 is
invalid/unset; ordering is lexicographic; `GetChannelNumber` returns the major
part. -/
structure CPVRChannelNumber where
  major : Nat
  sub : Nat
deriving DecidableEq, Repr

namespace CPVRChannelNumber

/-- `CPVRChannelNumber::IsValid`: true iff the major number is positive. -/
def isValid (n : CPVRChannelNumber) : Bool := 0 < n.major

/-- Lexicographic strict order on (major, sub), per the spec. -/
def numLt (a b : CPVRChannelNumber) : Bool :=
  a.major < b.major || (a.major == b.major && a.sub < b.sub)

/-- `GetChannelNumber`: the major part. -/
def getChannelNumber (n : CPVRChannelNumber) : Nat := n.major

/-- `GetSubChannelNumber`: the sub part. -/
def getSubChannelNumber (n : CPVRChannelNumber) : Nat := n.sub

end CPVRChannelNumber

/-- The channel entity (`CPVRChannel`) is an external collaborator; only the
fields this core reads are modelled: client id, unique id, name and the hidden
flag. -/
structure CPVRChannel where
  clientId : Int
  uniqueId : Int
  channelName : String
  isHidden : Bool
deriving DecidableEq, Repr

/-- `CPVRChannel::StorageId()`: the pair (client id, unique id), cf. the call
`GetByUniqueID(std::make_pair(iClientID, iUniqueChannelId))`. -/
def StorageId := Int × Int
deriving DecidableEq, Repr

def CPVRChannel.storageId (c : CPVRChannel) : StorageId := (c.clientId, c.uniqueId)

/-- Modelled from the spec: `CPVRChannel::operator==` (the channel entity's
implementation is not among the sources) compares the backend-qualified
identity, i.e. the storage id. -/
def chanEq (a b : CPVRChannel) : Bool := a.storageId = b.storageId

/-- `CPVRChannelGroupMember` (from `PVRChannelGroupMember.h`): channel,
group-local number, backend-native (client) number, client priority and
insertion order. -/
structure CPVRChannelGroupMember where
  channel : CPVRChannel
  channelNumber : CPVRChannelNumber
  clientChannelNumber : CPVRChannelNumber
  clientPriority : Int
  order : Int
deriving DecidableEq, Repr

/-- Group-type constant from the addon API header (not among the sources;
only equality with it matters). -/
def PVR_GROUP_TYPE_INTERNAL : Int := 1

/-- Group-type constant from the addon API header (not among the sources;
only equality with it matters). -/
def PVR_GROUP_TYPE_USER_DEFINED : Int := 2

/-- `CPVRChannelGroup::INVALID_GROUP_ID` from the class header (not among the
sources; only equality with it matters). -/
def INVALID_GROUP_ID : Int := -1

/-- The state of a `CPVRChannelGroup`: the dual-view member index
(`m_members` keyed map and `m_sortedMembers` ordered sequence), identity and
flags, the cached policy snapshot, the failed-backends set, and the consulted
view of the all-channels group's keyed map (`m_allChannelsGroup`). Fields this
verification never reads (path, position, timestamps, group-hidden flag,
event sink) are omitted. -/
structure CPVRChannelGroup where
  groupId : Int
  groupType : Int
  sortedMembers : List CPVRChannelGroupMember
  members : List (StorageId × CPVRChannelGroupMember)
  failedClients : List Int
  loaded : Bool
  changed : Bool
  preventSortAndRenumber : Bool
  usingBackendChannelOrder : Bool
  usingBackendChannelNumbers : Bool
  startGroupChannelNumbersFromOne : Bool
  syncChannelGroups : Bool
  acgMembers : List (StorageId × CPVRChannelGroupMember)
deriving DecidableEq, Repr

/-- The environment of external collaborators: the configuration settings read
freshly by `Update`/`Renumber`, the enabled-client count, the TV database, the
per-client priorities (`GetCreatedClient` failing = key absent) and the result
of a backend fetch (`LoadFromClients` on the transient group). -/
structure Env where
  settingSyncChannelGroups : Bool
  settingUseBackendChannelNumbers : Bool
  settingUseBackendChannelNumbersAlways : Bool
  settingStartGroupChannelNumbersFromOne : Bool
  enabledClientAmount : Nat
  dbPresent : Bool
  dbPersistOk : Bool
  clientPriorities : List (Int × Int)
  fetchedMembers : List (StorageId × CPVRChannelGroupMember)
  fetchFailedClients : List Int
deriving DecidableEq, Repr

/-- Helper `UsingBackendChannelNumbers` (unnamed namespace): the setting is
effective with exactly one enabled client, or with more when the
"always" setting is on. -/
def usingBackendChannelNumbersEnv (env : Env) : Bool :=
  env.settingUseBackendChannelNumbers &&
    (env.enabledClientAmount == 1 ||
      (env.settingUseBackendChannelNumbersAlways && env.enabledClientAmount > 1))

/-- `std::map::find` on the keyed member view (first entry with the key). -/
def findMember : List (StorageId × CPVRChannelGroupMember) → StorageId →
    Option CPVRChannelGroupMember
  | [], _ => none
  | p :: l, k => if p.1 = k then some p.2 else findMember l k

/-- `std::map::erase(key)`: drop the entries with the given key. -/
def eraseKey : List (StorageId × CPVRChannelGroupMember) → StorageId →
    List (StorageId × CPVRChannelGroupMember)
  | [], _ => []
  | p :: l, k => if p.1 = k then eraseKey l k else p :: eraseKey l k

/-- `std::map::insert`: no-op when the key is already present. -/
def insertPair (l : List (StorageId × CPVRChannelGroupMember)) (k : StorageId)
    (v : CPVRChannelGroupMember) : List (StorageId × CPVRChannelGroupMember) :=
  if (findMember l k).isSome then l else l ++ [(k, v)]

/-- Writing the group-local and client numbers of the map entry for `k`,
mirroring the write through `GetByUniqueID` in `Renumber` (a write to a
missing key hits the shared `EmptyMember` sentinel, which is not part of the
group state, hence a no-op here). -/
def updateEntryNums (l : List (StorageId × CPVRChannelGroupMember)) (k : StorageId)
    (num ccn : CPVRChannelNumber) : List (StorageId × CPVRChannelGroupMember) :=
  l.map (fun p =>
    if p.1 = k then (p.1, { p.2 with channelNumber := num, clientChannelNumber := ccn }) else p)

/-- Writing the client priority of the map entry for `k`: the map and the
sequence share member objects, so `SetClientPriority` through the sequence view
is visible in the map view. -/
def updateEntryPriority (l : List (StorageId × CPVRChannelGroupMember)) (k : StorageId)
    (prio : Int) : List (StorageId × CPVRChannelGroupMember) :=
  l.map (fun p => if p.1 = k then (p.1, { p.2 with clientPriority := prio }) else p)

/-- Writing client number and order of the map entry for `k` (shared-object
write in the update branch of `AddAndUpdateChannels`). -/
def updateEntryCcnOrder (l : List (StorageId × CPVRChannelGroupMember)) (k : StorageId)
    (ccn : CPVRChannelNumber) (iOrder : Int) : List (StorageId × CPVRChannelGroupMember) :=
  l.map (fun p =>
    if p.1 = k then (p.1, { p.2 with clientChannelNumber := ccn, order := iOrder }) else p)

/-- `CPVRChannelGroup::IsGroupMember(channel)`. -/
def isGroupMember (g : CPVRChannelGroup) (ch : CPVRChannel) : Bool :=
  (findMember g.members ch.storageId).isSome

/-- `IsInternalGroup()` from the class header: the group is the synthetic
all-channels group. -/
def isInternalGroup (g : CPVRChannelGroup) : Bool :=
  g.groupType = PVR_GROUP_TYPE_INTERNAL

/-- `m_allChannelsGroup->GetChannelNumber(channel)`: via `GetByUniqueID`; on a
miss the `EmptyMember` sentinel yields the default (invalid) number. -/
def acgChannelNumber (g : CPVRChannelGroup) (ch : CPVRChannel) : CPVRChannelNumber :=
  ((findMember g.acgMembers ch.storageId).map (fun m => m.channelNumber)).getD ⟨0, 0⟩

/-- `m_allChannelsGroup->GetClientChannelNumber(channel)`: as above for the
backend-native number. -/
def acgClientChannelNumber (g : CPVRChannelGroup) (ch : CPVRChannel) : CPVRChannelNumber :=
  ((findMember g.acgMembers ch.storageId).map (fun m => m.clientChannelNumber)).getD ⟨0, 0⟩

/-- `HasValidDataFromClient(clientId)`: the client is not in the
failed-clients set. -/
def hasValidDataFromClient (g : CPVRChannelGroup) (clientId : Int) : Bool :=
  !(g.failedClients.contains clientId)

/-! ### Sort comparators and `Sort` -/

/-- `struct sortByClientChannelNumber`: descending client priority, then
ascending client channel number, then channel name. -/
def sortByClientChannelNumberLt (a b : CPVRChannelGroupMember) : Bool :=
  if a.clientPriority = b.clientPriority then
    if a.clientChannelNumber = b.clientChannelNumber then
      decide (a.channel.channelName < b.channel.channelName)
    else a.clientChannelNumber.numLt b.clientChannelNumber
  else b.clientPriority < a.clientPriority

/-- `struct sortByChannelNumber`: ascending group-local channel number. -/
def sortByChannelNumberLt (a b : CPVRChannelGroupMember) : Bool :=
  a.channelNumber.numLt b.channelNumber

/-- The non-strict comparison fed to the sort, derived from a strict
comparator as `le a b := !(lt b a)`. -/
def leOf (lt : CPVRChannelGroupMember → CPVRChannelGroupMember → Bool)
    (a b : CPVRChannelGroupMember) : Bool := !(lt b a)

/-- Insert into a sorted list, before the first element it compares
less-or-equal to. -/
def orderedInsert (le : CPVRChannelGroupMember → CPVRChannelGroupMember → Bool)
    (a : CPVRChannelGroupMember) : List CPVRChannelGroupMember →
    List CPVRChannelGroupMember
  | [] => [a]
  | b :: l => if le a b then a :: b :: l else b :: orderedInsert le a l

/-- `std::sort` on the member sequence, modelled by a deterministic (stable)
insertion sort with the given comparison. -/
def sortMembers (le : CPVRChannelGroupMember → CPVRChannelGroupMember → Bool) :
    List CPVRChannelGroupMember → List CPVRChannelGroupMember
  | [] => []
  | a :: l => orderedInsert le a (sortMembers le l)

/-- `SortByClientChannelNumber()`: sorts the sequence unless prevented. -/
def sortByClientChannelNumber (g : CPVRChannelGroup) : CPVRChannelGroup :=
  if !g.preventSortAndRenumber then
    { g with sortedMembers := sortMembers (leOf sortByClientChannelNumberLt) g.sortedMembers }
  else g

/-- `SortByChannelNumber()`: sorts the sequence unless prevented. -/
def sortByChannelNumber (g : CPVRChannelGroup) : CPVRChannelGroup :=
  if !g.preventSortAndRenumber then
    { g with sortedMembers := sortMembers (leOf sortByChannelNumberLt) g.sortedMembers }
  else g

/-- `Sort()`: choose the comparator from the cached backend-order policy. -/
def sortOp (g : CPVRChannelGroup) : CPVRChannelGroup :=
  if g.usingBackendChannelOrder then sortByClientChannelNumber g else sortByChannelNumber g

/-! ### `Renumber` -/

inductive RenumberMode where
  | NORMAL
  | IGNORE_NUMBERING_FROM_ONE
deriving DecidableEq, Repr

/-- The per-member computation of `Renumber`'s loop body: the (possibly
inherited) client channel number, the new group-local number per the policy
decision ladder, and the updated sequential counter. -/
def renumberTarget (g : CPVRChannelGroup) (ubcn sfo : Bool) (mode : RenumberMode)
    (counter : Nat) (m : CPVRChannelGroupMember) :
    CPVRChannelNumber × CPVRChannelNumber × Nat :=
  let ccn := if m.clientChannelNumber.isValid then m.clientChannelNumber
             else acgClientChannelNumber g m.channel
  if ubcn then (ccn, ccn, counter)
  else if m.channel.isHidden then (⟨0, 0⟩, ccn, counter)
  else if isInternalGroup g then (⟨counter + 1, 0⟩, ccn, counter + 1)
  else if sfo && !(mode = RenumberMode.IGNORE_NUMBERING_FROM_ONE : Bool) then
    (⟨counter + 1, 0⟩, ccn, counter + 1)
  else (acgChannelNumber g m.channel, ccn, counter)

/-- `Renumber`'s loop over `m_sortedMembers`: whenever the computed numbers
differ from the stored ones the member is updated in the sequence and, through
`GetByUniqueID`, in the keyed map, and the changed flag is raised. -/
def renumberLoop (g : CPVRChannelGroup) (ubcn sfo : Bool) (mode : RenumberMode) :
    List CPVRChannelGroupMember → List (StorageId × CPVRChannelGroupMember) → Bool → Nat →
    List CPVRChannelGroupMember × List (StorageId × CPVRChannelGroupMember) × Bool
  | [], mp, b, _ => ([], mp, b)
  | m :: rest, mp, b, c =>
    let t := renumberTarget g ubcn sfo mode c m
    if m.channelNumber ≠ t.1 ∨ m.clientChannelNumber ≠ t.2.1 then
      let m' := { m with channelNumber := t.1, clientChannelNumber := t.2.1 }
      let mp' := updateEntryNums mp m.channel.storageId t.1 t.2.1
      let r := renumberLoop g ubcn sfo mode rest mp' true t.2.2
      (m' :: r.1, r.2)
    else
      let r := renumberLoop g ubcn sfo mode rest mp b t.2.2
      (m :: r.1, r.2)

/-- `CPVRChannelGroup::Renumber(mode)`: a no-op returning `true` when
prevented; otherwise reads the numbering settings freshly, renumbers every
member in sequence order, and finally calls `Sort()`. -/
def renumber (g : CPVRChannelGroup) (mode : RenumberMode) (env : Env) :
    CPVRChannelGroup × Bool :=
  if g.preventSortAndRenumber then (g, true)
  else
    let ubcn := usingBackendChannelNumbersEnv env
    let sfo := env.settingStartGroupChannelNumbersFromOne && !ubcn
    let r := renumberLoop g ubcn sfo mode g.sortedMembers g.members false 0
    (sortOp { g with sortedMembers := r.1, members := r.2.1 }, r.2.2)

/-- `SortAndRenumber()`: skip (returning `true`) when prevented; otherwise
sort, then renumber (default mode). -/
def sortAndRenumber (g : CPVRChannelGroup) (env : Env) : CPVRChannelGroup × Bool :=
  if g.preventSortAndRenumber then (g, true)
  else renumber (sortOp g) RenumberMode.NORMAL env

/-! ### Mutation operations -/

/-- `Unload()`: clear the sequence, the map and the failed-clients set. -/
def unload (g : CPVRChannelGroup) : CPVRChannelGroup :=
  { g with sortedMembers := [], members := [], failedClients := [] }

/-- `UpdateClientPriorities()`'s loop body for one member: with backend order
active, a client for which `GetCreatedClient` fails is skipped (`continue`);
otherwise the new priority is the client's (or 0 without backend order), the
changed flag accumulates, and the shared member object is written. -/
def updateClientPrioritiesLoop (g : CPVRChannelGroup) (env : Env) :
    List CPVRChannelGroupMember → List (StorageId × CPVRChannelGroupMember) →
    List CPVRChannelGroupMember × List (StorageId × CPVRChannelGroupMember) × Bool
  | [], mp => ([], mp, false)
  | m :: rest, mp =>
    if g.usingBackendChannelOrder then
      match (env.clientPriorities.find? (fun p => p.1 = m.channel.clientId)).map
          (fun p => p.2) with
      | none =>
        let r := updateClientPrioritiesLoop g env rest mp
        (m :: r.1, r.2.1, r.2.2)
      | some prio =>
        let m' := { m with clientPriority := prio }
        let mp' := updateEntryPriority mp m.channel.storageId prio
        let r := updateClientPrioritiesLoop g env rest mp'
        (m' :: r.1, r.2.1, r.2.2 || !(m.clientPriority = prio : Bool))
    else
      let m' := { m with clientPriority := 0 }
      let mp' := updateEntryPriority mp m.channel.storageId 0
      let r := updateClientPrioritiesLoop g env rest mp'
      (m' :: r.1, r.2.1, r.2.2 || !(m.clientPriority = 0 : Bool))

/-- `UpdateClientPriorities()`. -/
def updateClientPriorities (g : CPVRChannelGroup) (env : Env) : CPVRChannelGroup × Bool :=
  let r := updateClientPrioritiesLoop g env g.sortedMembers g.members
  ({ g with sortedMembers := r.1, members := r.2.1 }, r.2.2)

/-- `AddToGroup(channel, channelNumber, iOrder, bUseBackendChannelNumbers,
clientChannelNumber)`: if the channel is not yet a member and the "real"
member (self for the internal group, otherwise the all-channels group's) has a
channel, build a new member—major number from the argument when valid else
from the real member, sub number from the argument, client number from the
argument when valid else from the real member, priority from the real
member—append it to the sequence, insert it into the map and sort-and-renumber.
(The parameter `bUseBackendChannelNumbers` is unused by the implementation.) -/
def addToGroup (g : CPVRChannelGroup) (ch : CPVRChannel)
    (channelNumber : CPVRChannelNumber) (iOrder : Int)
    (_bUseBackendChannelNumbers : Bool) (clientChannelNumber : CPVRChannelNumber)
    (env : Env) : CPVRChannelGroup × Bool :=
  if !(isGroupMember g ch) then
    match (if isInternalGroup g then findMember g.members ch.storageId
           else findMember g.acgMembers ch.storageId) with
    | none => (g, false)
    | some realMember =>
      let iChannelNumber := if channelNumber.isValid then channelNumber.getChannelNumber
                            else realMember.channelNumber.getChannelNumber
      let clientChannelNumberToUse := if clientChannelNumber.isValid then clientChannelNumber
                                      else realMember.clientChannelNumber
      let newMember : CPVRChannelGroupMember :=
        { channel := realMember.channel
          channelNumber := ⟨iChannelNumber, channelNumber.getSubChannelNumber⟩
          clientChannelNumber := clientChannelNumberToUse
          clientPriority := realMember.clientPriority
          order := iOrder }
      let g' := { g with
        sortedMembers := g.sortedMembers ++ [newMember]
        members := insertPair g.members realMember.channel.storageId newMember }
      ((sortAndRenumber g' env).1, true)
  else (g, false)

/-- The maximum over the sequence of the members' (major) group-local channel
numbers, as computed by `AppendToGroup`. -/
def maxChannelNumber (g : CPVRChannelGroup) : Nat :=
  g.sortedMembers.foldl
    (fun acc m => if m.channelNumber.getChannelNumber > acc then m.channelNumber.getChannelNumber
                  else acc) 0

/-- `AppendToGroup(channel)`: add one past the maximum group-local number. -/
def appendToGroup (g : CPVRChannelGroup) (ch : CPVRChannel) (env : Env) :
    CPVRChannelGroup × Bool :=
  addToGroup g ch ⟨maxChannelNumber g + 1, 0⟩ 0 false ⟨0, 0⟩ env

/-- `RemoveFromGroup(channel)`: erase the first sequence member whose channel
equals the given one from both views, then renumber only if something was
removed. -/
def removeFromGroup (g : CPVRChannelGroup) (ch : CPVRChannel) (env : Env) :
    CPVRChannelGroup × Bool :=
  match g.sortedMembers.find? (fun m => chanEq ch m.channel) with
  | none => (g, false)
  | some m =>
    let g' := { g with
      members := eraseKey g.members m.channel.storageId
      sortedMembers := g.sortedMembers.eraseP (fun m' => chanEq ch m'.channel) }
    ((renumber g' RenumberMode.NORMAL env).1, true)

/-- `RemoveDeletedChannels`'s loop: a member whose channel is missing from the
snapshot's keyed map is erased from both views; its channel is reported as
removed only when its client is not in the failed-clients set. -/
def removeDeletedChannelsLoop (snap : List (StorageId × CPVRChannelGroupMember))
    (failed : List Int) :
    List CPVRChannelGroupMember → List (StorageId × CPVRChannelGroupMember) →
    List CPVRChannelGroupMember × List (StorageId × CPVRChannelGroupMember) × List CPVRChannel
  | [], mp => ([], mp, [])
  | m :: rest, mp =>
    if (findMember snap m.channel.storageId).isNone then
      let mp' := eraseKey mp m.channel.storageId
      let r := removeDeletedChannelsLoop snap failed rest mp'
      if !(failed.contains m.channel.clientId) then (r.1, r.2.1, m.channel :: r.2.2)
      else (r.1, r.2.1, r.2.2)
    else
      let r := removeDeletedChannelsLoop snap failed rest mp
      (m :: r.1, r.2.1, r.2.2)

/-- `RemoveDeletedChannels(channels)`: returns the updated group and the list
of removed channels (only `channels.m_members` of the snapshot is read). -/
def removeDeletedChannels (g : CPVRChannelGroup)
    (snap : List (StorageId × CPVRChannelGroupMember)) :
    CPVRChannelGroup × List CPVRChannel :=
  let r := removeDeletedChannelsLoop snap g.failedClients g.sortedMembers g.members
  ({ g with sortedMembers := r.1, members := r.2.1 }, r.2.2)

/-- `AddAndUpdateChannels`'s loop over the snapshot's keyed map: a snapshot
channel unknown to the all-channels group is skipped; a known channel not yet
in this group is added via `AddToGroup` with the snapshot's numbers and order;
an existing member is updated in place (shared-object write) when client
number or order differ. When the group's own map misses the key, the code
reads and writes the shared `EmptyMember` sentinel (default numbers), which is
not part of the group state. -/
def addAndUpdateChannelsLoop (bUseBackendChannelNumbers : Bool) (env : Env) :
    List (StorageId × CPVRChannelGroupMember) → CPVRChannelGroup → Bool →
    CPVRChannelGroup × Bool
  | [], g, b => (g, b)
  | (k, newMember) :: rest, g, b =>
    match findMember g.acgMembers k with
    | none => addAndUpdateChannelsLoop bUseBackendChannelNumbers env rest g b
    | some existingAllChannelsMember =>
      if !(isGroupMember g existingAllChannelsMember.channel) then
        let r := addToGroup g existingAllChannelsMember.channel newMember.channelNumber
          newMember.order bUseBackendChannelNumbers newMember.clientChannelNumber env
        addAndUpdateChannelsLoop bUseBackendChannelNumbers env rest r.1 true
      else
        match findMember g.members k with
        | none =>
          -- sentinel read/write: compare against the default member
          if (⟨0, 0⟩ : CPVRChannelNumber) ≠ newMember.clientChannelNumber ∨
              (0 : Int) ≠ newMember.order then
            addAndUpdateChannelsLoop bUseBackendChannelNumbers env rest g true
          else addAndUpdateChannelsLoop bUseBackendChannelNumbers env rest g b
        | some existingMember =>
          if existingMember.clientChannelNumber ≠ newMember.clientChannelNumber ∨
              existingMember.order ≠ newMember.order then
            let g' := { g with
              members := updateEntryCcnOrder g.members k newMember.clientChannelNumber
                newMember.order
              sortedMembers := g.sortedMembers.map (fun m =>
                if m.channel.storageId = k then
                  { m with clientChannelNumber := newMember.clientChannelNumber,
                           order := newMember.order }
                else m) }
            addAndUpdateChannelsLoop bUseBackendChannelNumbers env rest g' true
          else addAndUpdateChannelsLoop bUseBackendChannelNumbers env rest g b

/-- `AddAndUpdateChannels(channels, bUseBackendChannelNumbers)`: process the
snapshot, then `SortAndRenumber()`; returns whether members were added or
updated (not the sort-and-renumber result). -/
def addAndUpdateChannels (g : CPVRChannelGroup)
    (snap : List (StorageId × CPVRChannelGroupMember)) (bUseBackendChannelNumbers : Bool)
    (env : Env) : CPVRChannelGroup × Bool :=
  let r := addAndUpdateChannelsLoop bUseBackendChannelNumbers env snap g false
  ((sortAndRenumber r.1 env).1, r.2)

/-- `Persist()`: no-op success when not fully loaded but already persisted;
mark a never-persisted group loaded; then delegate to the database when
present (clearing the dirty flag) or fail. -/
def persist (g : CPVRChannelGroup) (env : Env) : CPVRChannelGroup × Bool :=
  if !g.loaded && !(g.groupId = INVALID_GROUP_ID : Bool) then (g, true)
  else
    let g' := if g.groupId = INVALID_GROUP_ID then { g with loaded := true } else g
    if env.dbPresent then ({ g' with changed := false }, env.dbPersistOk)
    else (g', false)

/-- The outcome of `UpdateGroupEntries`: the final group state, the removed
channels passed back to the caller, the engine's aggregate changed flag, and
the returned success. -/
structure UpdateResult where
  state : CPVRChannelGroup
  removed : List CPVRChannel
  changedResult : Bool
  ok : Bool
deriving DecidableEq, Repr

/-- `UpdateGroupEntries(channels, channelsToRemove)`: with sort-and-renumber
suppressed, remove deleted channels and add/update from the snapshot; refresh
client priorities; when anything changed, sort-and-renumber and persist,
otherwise succeed. -/
def updateGroupEntries (g : CPVRChannelGroup)
    (snap : List (StorageId × CPVRChannelGroupMember)) (env : Env) : UpdateResult :=
  let bUseBackendChannelNumbers := g.members.isEmpty || g.usingBackendChannelOrder
  let g1 := { g with preventSortAndRenumber := true }
  let rdc := removeDeletedChannels g1 snap
  let bRemoved := !rdc.2.isEmpty
  let aau := addAndUpdateChannels rdc.1 snap bUseBackendChannelNumbers env
  let bChanged := aau.2 || bRemoved
  let g4 := { aau.1 with preventSortAndRenumber := false }
  let ucp := updateClientPriorities g4 env
  let bChanged2 := bChanged || ucp.2
  if bChanged2 then
    let sar := sortAndRenumber ucp.1 env
    let per := persist sar.1 env
    ⟨per.1, rdc.2, bChanged2, per.2⟩
  else ⟨ucp.1, rdc.2, bChanged2, true⟩

/-- `Update(channelsToRemove)`: a no-op returning success for a user-defined
group or with the sync-groups setting off; otherwise build the transient group
(fetched from the backends with sort-and-renumber prevented, its fetch result
ignored), take over its failed clients, and reconcile. -/
def update (g : CPVRChannelGroup) (env : Env) :
    CPVRChannelGroup × List CPVRChannel × Bool :=
  if g.groupType = PVR_GROUP_TYPE_USER_DEFINED ∨ !env.settingSyncChannelGroups then
    (g, [], true)
  else
    let g' := { g with failedClients := env.fetchFailedClients }
    let r := updateGroupEntries g' env.fetchedMembers env
    (r.state, r.removed, r.ok)

/-! ### Basic lemmas about the keyed map -/

theorem findMember_eraseKey (l : List (StorageId × CPVRChannelGroupMember))
    (k j : StorageId) :
    findMember (eraseKey l j) k = if k = j then none else findMember l k := by
  induction l with
  | nil => simp [findMember, eraseKey]
  | cons p l ih =>
    by_cases hpj : p.1 = j
    · by_cases hkj : k = j
      · simpa [findMember, eraseKey, hpj, hkj] using ih
      · have hpk : ¬(p.1 = k) := fun h => hkj (by rw [← h, hpj])
        have hjk : ¬(j = k) := fun h => hkj h.symm
        simpa [findMember, eraseKey, hpj, hkj, hpk, hjk] using ih
    · by_cases hpk : p.1 = k
      · have hkj : ¬(k = j) := fun h => hpj (by rw [hpk, h])
        simp [findMember, eraseKey, hpj, hpk, hkj]
      · simpa [findMember, eraseKey, hpj, hpk] using ih

theorem findMember_isSome_iff {l : List (StorageId × CPVRChannelGroupMember)}
    {k : StorageId} : (findMember l k).isSome = true ↔ k ∈ l.map Prod.fst := by
  induction l with
  | nil => simp [findMember]
  | cons p l ih =>
    by_cases h : p.1 = k
    · simp [findMember, h]
    · rw [List.map_cons]
      simp only [findMember, h, if_false, List.mem_cons]
      rw [ih]
      constructor
      · exact Or.inr
      · rintro (rfl | hk)
        · exact absurd rfl h
        · exact hk

theorem keys_updateEntryNums (l : List (StorageId × CPVRChannelGroupMember))
    (k : StorageId) (num ccn : CPVRChannelNumber) :
    (updateEntryNums l k num ccn).map Prod.fst = l.map Prod.fst := by
  induction l with
  | nil => rfl
  | cons p l ih =>
    by_cases h : p.1 = k <;> simp [updateEntryNums, h] at ih ⊢ <;> exact ih

theorem keys_updateEntryPriority (l : List (StorageId × CPVRChannelGroupMember))
    (k : StorageId) (prio : Int) :
    (updateEntryPriority l k prio).map Prod.fst = l.map Prod.fst := by
  induction l with
  | nil => rfl
  | cons p l ih =>
    by_cases h : p.1 = k <;> simp [updateEntryPriority, h] at ih ⊢ <;> exact ih

theorem keys_updateEntryCcnOrder (l : List (StorageId × CPVRChannelGroupMember))
    (k : StorageId) (ccn : CPVRChannelNumber) (iOrder : Int) :
    (updateEntryCcnOrder l k ccn iOrder).map Prod.fst = l.map Prod.fst := by
  induction l with
  | nil => rfl
  | cons p l ih =>
    by_cases h : p.1 = k <;> simp [updateEntryCcnOrder, h] at ih ⊢ <;> exact ih

/-! ### Lemmas on `RemoveDeletedChannels` -/

theorem removeDeletedChannelsLoop_fst_mem
    {snap : List (StorageId × CPVRChannelGroupMember)} {failed : List Int}
    {seq : List CPVRChannelGroupMember} {mp : List (StorageId × CPVRChannelGroupMember)}
    {m : CPVRChannelGroupMember}
    (hm : m ∈ (removeDeletedChannelsLoop snap failed seq mp).1) :
    (findMember snap m.channel.storageId).isSome = true := by
  induction seq generalizing mp with
  | nil => simp [removeDeletedChannelsLoop] at hm
  | cons hd tl ih =>
    by_cases hmiss : (findMember snap hd.channel.storageId).isNone
    · simp only [removeDeletedChannelsLoop, hmiss, if_true] at hm
      split at hm <;> exact ih hm
    · simp only [removeDeletedChannelsLoop, hmiss, Bool.false_eq_true, if_false,
        List.mem_cons] at hm
      rcases hm with rfl | hm
      · simpa [Option.isNone_iff_eq_none, Option.isSome_iff_ne_none] using hmiss
      · exact ih hm

theorem removeDeletedChannelsLoop_map_none
    {snap : List (StorageId × CPVRChannelGroupMember)} {failed : List Int}
    {seq : List CPVRChannelGroupMember} {mp : List (StorageId × CPVRChannelGroupMember)}
    {k : StorageId} (hk : findMember mp k = none) :
    findMember (removeDeletedChannelsLoop snap failed seq mp).2.1 k = none := by
  induction seq generalizing mp with
  | nil => simpa [removeDeletedChannelsLoop] using hk
  | cons hd tl ih =>
    by_cases hmiss : (findMember snap hd.channel.storageId).isNone
    · simp only [removeDeletedChannelsLoop, hmiss, if_true]
      have : findMember (eraseKey mp hd.channel.storageId) k = none := by
        rw [findMember_eraseKey]
        split <;> simp [hk]
      split <;> exact ih this
    · simp only [removeDeletedChannelsLoop, hmiss, Bool.false_eq_true, if_false]
      exact ih hk

theorem removeDeletedChannelsLoop_member_gone
    {snap : List (StorageId × CPVRChannelGroupMember)} {failed : List Int}
    {seq : List CPVRChannelGroupMember} {mp : List (StorageId × CPVRChannelGroupMember)}
    {m : CPVRChannelGroupMember} (hm : m ∈ seq)
    (hmiss : findMember snap m.channel.storageId = none) :
    findMember (removeDeletedChannelsLoop snap failed seq mp).2.1 m.channel.storageId
      = none := by
  induction seq generalizing mp with
  | nil => simp at hm
  | cons hd tl ih =>
    rcases List.mem_cons.mp hm with rfl | hm
    · simp only [removeDeletedChannelsLoop, hmiss, Option.isNone_none, if_true]
      have herase : findMember (eraseKey mp m.channel.storageId) m.channel.storageId
          = none := by
        rw [findMember_eraseKey]
        simp
      split <;> exact removeDeletedChannelsLoop_map_none herase
    · by_cases hh : (findMember snap hd.channel.storageId).isNone
      · simp only [removeDeletedChannelsLoop, hh, if_true]
        split <;> exact ih hm
      · simp only [removeDeletedChannelsLoop, hh, Bool.false_eq_true, if_false]
        exact ih hm

theorem removeDeletedChannelsLoop_removed_spec
    {snap : List (StorageId × CPVRChannelGroupMember)} {failed : List Int}
    {seq : List CPVRChannelGroupMember} {mp : List (StorageId × CPVRChannelGroupMember)}
    {ch : CPVRChannel} (hch : ch ∈ (removeDeletedChannelsLoop snap failed seq mp).2.2) :
    findMember snap ch.storageId = none ∧ failed.contains ch.clientId = false := by
  induction seq generalizing mp with
  | nil => simp [removeDeletedChannelsLoop] at hch
  | cons hd tl ih =>
    by_cases hmiss : (findMember snap hd.channel.storageId).isNone
    · simp only [removeDeletedChannelsLoop, hmiss, if_true] at hch
      by_cases hc : failed.contains hd.channel.clientId
      · simp only [hc, Bool.not_true, Bool.false_eq_true, if_false] at hch
        exact ih hch
      · simp only [hc, Bool.not_false, if_true, List.mem_cons] at hch
        rcases hch with rfl | hch
        · exact ⟨Option.isNone_iff_eq_none.mp hmiss, by simpa using hc⟩
        · exact ih hch
    · simp only [removeDeletedChannelsLoop, hmiss, Bool.false_eq_true, if_false] at hch
      exact ih hch

/-! ### Lemmas on the insertion sort -/

theorem mem_orderedInsert {le : CPVRChannelGroupMember → CPVRChannelGroupMember → Bool}
    {a m : CPVRChannelGroupMember} {l : List CPVRChannelGroupMember} :
    m ∈ orderedInsert le a l ↔ m = a ∨ m ∈ l := by
  induction l with
  | nil => simp [orderedInsert]
  | cons b l ih =>
    by_cases h : le a b
    · simp [orderedInsert, h]
    · simp [orderedInsert, h, ih]
      tauto

theorem orderedInsert_perm {le : CPVRChannelGroupMember → CPVRChannelGroupMember → Bool}
    (a : CPVRChannelGroupMember) (l : List CPVRChannelGroupMember) :
    List.Perm (orderedInsert le a l) (a :: l) := by
  induction l with
  | nil => simp [orderedInsert]
  | cons b l ih =>
    by_cases h : le a b
    · simp [orderedInsert, h]
    · simp only [orderedInsert, h, Bool.false_eq_true, if_false]
      exact (ih.cons b).trans (List.Perm.swap a b l)

theorem sortMembers_perm (le : CPVRChannelGroupMember → CPVRChannelGroupMember → Bool)
    (l : List CPVRChannelGroupMember) : List.Perm (sortMembers le l) l := by
  induction l with
  | nil => simp [sortMembers]
  | cons a l ih => exact (orderedInsert_perm a (sortMembers le l)).trans (ih.cons a)

theorem mem_sortMembers {le : CPVRChannelGroupMember → CPVRChannelGroupMember → Bool}
    {m : CPVRChannelGroupMember} {l : List CPVRChannelGroupMember} :
    m ∈ sortMembers le l ↔ m ∈ l := (sortMembers_perm le l).mem_iff

theorem pairwise_orderedInsert
    {le : CPVRChannelGroupMember → CPVRChannelGroupMember → Bool}
    (htrans : ∀ a b c, le a b = true → le b c = true → le a c = true)
    (htotal : ∀ a b, le a b = true ∨ le b a = true)
    {a : CPVRChannelGroupMember} {l : List CPVRChannelGroupMember}
    (hl : l.Pairwise (fun x y => le x y = true)) :
    (orderedInsert le a l).Pairwise (fun x y => le x y = true) := by
  induction l with
  | nil => simp [orderedInsert]
  | cons b l ih =>
    rcases List.pairwise_cons.mp hl with ⟨hb, hl'⟩
    by_cases h : le a b
    · simp only [orderedInsert, h, if_true]
      refine List.pairwise_cons.mpr ⟨?_, hl⟩
      intro x hx
      rcases List.mem_cons.mp hx with rfl | hx
      · exact h
      · exact htrans a b x h (hb x hx)
    · simp only [orderedInsert, h, Bool.false_eq_true, if_false]
      refine List.pairwise_cons.mpr ⟨?_, ih hl'⟩
      intro x hx
      rcases mem_orderedInsert.mp hx with rfl | hx
      · rcases htotal x b with h' | h'
        · exact absurd h' h
        · exact h'
      · exact hb x hx

theorem pairwise_sortMembers
    {le : CPVRChannelGroupMember → CPVRChannelGroupMember → Bool}
    (htrans : ∀ a b c, le a b = true → le b c = true → le a c = true)
    (htotal : ∀ a b, le a b = true ∨ le b a = true)
    (l : List CPVRChannelGroupMember) :
    (sortMembers le l).Pairwise (fun x y => le x y = true) := by
  induction l with
  | nil => simp [sortMembers]
  | cons a l ih => exact pairwise_orderedInsert htrans htotal ih

theorem sortMembers_of_pairwise
    {le : CPVRChannelGroupMember → CPVRChannelGroupMember → Bool}
    {l : List CPVRChannelGroupMember}
    (hl : l.Pairwise (fun x y => le x y = true)) : sortMembers le l = l := by
  induction l with
  | nil => simp [sortMembers]
  | cons a l ih =>
    rcases List.pairwise_cons.mp hl with ⟨ha, hl'⟩
    rw [sortMembers, ih hl']
    cases l with
    | nil => simp [orderedInsert]
    | cons b l' => simp [orderedInsert, ha b (by simp)]

/-! ### Lemmas on `Sort` and `Renumber` -/

theorem sortOp_fields (g : CPVRChannelGroup) :
    (sortOp g).preventSortAndRenumber = g.preventSortAndRenumber ∧
    (sortOp g).members = g.members ∧
    (sortOp g).acgMembers = g.acgMembers ∧
    (sortOp g).groupType = g.groupType ∧
    (sortOp g).usingBackendChannelOrder = g.usingBackendChannelOrder ∧
    (sortOp g).failedClients = g.failedClients := by
  unfold sortOp sortByClientChannelNumber sortByChannelNumber
  split <;> split <;> simp

theorem mem_sortOp {g : CPVRChannelGroup} {m : CPVRChannelGroupMember} :
    m ∈ (sortOp g).sortedMembers ↔ m ∈ g.sortedMembers := by
  unfold sortOp sortByClientChannelNumber sortByChannelNumber
  split <;> split <;> simp [mem_sortMembers]

theorem renumberLoop_keys (g : CPVRChannelGroup) (u sfo : Bool) (mode : RenumberMode)
    (seq : List CPVRChannelGroupMember) (mp : List (StorageId × CPVRChannelGroupMember))
    (b : Bool) (c : Nat) :
    (renumberLoop g u sfo mode seq mp b c).2.1.map Prod.fst = mp.map Prod.fst := by
  induction seq generalizing mp b c with
  | nil => rfl
  | cons hd tl ih =>
    rw [renumberLoop]
    split
    · rw [ih, keys_updateEntryNums]
    · rw [ih]

theorem renumber_members_keys (g : CPVRChannelGroup) (mode : RenumberMode) (env : Env) :
    ((renumber g mode env).1).members.map Prod.fst = g.members.map Prod.fst := by
  rw [renumber]
  split
  · rfl
  · rw [(sortOp_fields _).2.1]
    exact renumberLoop_keys ..

theorem sortAndRenumber_members_keys (g : CPVRChannelGroup) (env : Env) :
    ((sortAndRenumber g env).1).members.map Prod.fst = g.members.map Prod.fst := by
  rw [sortAndRenumber]
  split
  · rfl
  · rw [renumber_members_keys, (sortOp_fields _).2.1]

theorem renumberLoop_ubcn_mem {g : CPVRChannelGroup} {sfo : Bool} {mode : RenumberMode}
    {seq : List CPVRChannelGroupMember} {mp : List (StorageId × CPVRChannelGroupMember)}
    {b : Bool} {c : Nat} {m' : CPVRChannelGroupMember}
    (hm : m' ∈ (renumberLoop g true sfo mode seq mp b c).1) :
    m'.channelNumber = m'.clientChannelNumber := by
  induction seq generalizing mp b c with
  | nil => simp [renumberLoop] at hm
  | cons hd tl ih =>
    have htgt : renumberTarget g true sfo mode c hd =
        (if hd.clientChannelNumber.isValid then hd.clientChannelNumber
         else acgClientChannelNumber g hd.channel,
         if hd.clientChannelNumber.isValid then hd.clientChannelNumber
         else acgClientChannelNumber g hd.channel, c) := by
      simp [renumberTarget]
    rw [renumberLoop] at hm
    rw [htgt] at hm
    by_cases hch : hd.channelNumber ≠
        (if hd.clientChannelNumber.isValid then hd.clientChannelNumber
         else acgClientChannelNumber g hd.channel) ∨
        hd.clientChannelNumber ≠
        (if hd.clientChannelNumber.isValid then hd.clientChannelNumber
         else acgClientChannelNumber g hd.channel)
    · simp only [hch, if_true, List.mem_cons] at hm
      rcases hm with rfl | hm
      · rfl
      · exact ih hm
    · simp only [hch, if_false, List.mem_cons] at hm
      rcases hm with rfl | hm
      · push_neg at hch
        exact hch.1.trans hch.2.symm
      · exact ih hm

/-! ### Well-formedness of the dual-view member index -/

/-- Every map entry's value carries the channel whose storage id is the
entry's key. -/
def EntriesConsistent (l : List (StorageId × CPVRChannelGroupMember)) : Prop :=
  ∀ p ∈ l, p.2.channel.storageId = p.1

instance (l : List (StorageId × CPVRChannelGroupMember)) :
    Decidable (EntriesConsistent l) := List.decidableBAll _ l

/-- Well-formedness of the dual-view member index: consistent map entries,
no duplicate keys, and the keyed map holding exactly the members of the
ordered sequence. -/
def Wf (g : CPVRChannelGroup) : Prop :=
  EntriesConsistent g.members ∧ (g.members.map Prod.fst).Nodup ∧
    List.Perm (g.members.map Prod.fst)
      (g.sortedMembers.map (fun m => m.channel.storageId))

instance (g : CPVRChannelGroup) : Decidable (Wf g) := by
  unfold Wf
  infer_instance

/-- The consulted view of the all-channels group is consistent. -/
def AcgWf (g : CPVRChannelGroup) : Prop := EntriesConsistent g.acgMembers

instance (g : CPVRChannelGroup) : Decidable (AcgWf g) := by
  unfold AcgWf
  infer_instance

/-- Membership test on key lists (proof-side helper). -/
def keyMem (k : StorageId) : List StorageId → Bool
  | [] => false
  | j :: l => if j = k then true else keyMem k l

theorem keyMem_iff {k : StorageId} {l : List StorageId} :
    keyMem k l = true ↔ k ∈ l := by
  induction l with
  | nil => simp [keyMem]
  | cons j l ih =>
    by_cases h : j = k
    · simp [keyMem, h]
    · rw [keyMem, if_neg h, ih]
      constructor
      · exact fun hk => List.mem_cons_of_mem j hk
      · intro hk
        rcases List.mem_cons.mp hk with rfl | hk
        · exact absurd rfl h
        · exact hk

theorem eraseKey_eq_filter (l : List (StorageId × CPVRChannelGroupMember))
    (k : StorageId) : eraseKey l k = l.filter (fun p => !(p.1 = k : Bool)) := by
  induction l with
  | nil => rfl
  | cons p l ih => by_cases h : p.1 = k <;> simp [eraseKey, h, ih]

theorem keys_filter_fst (l : List (StorageId × CPVRChannelGroupMember))
    (q : StorageId → Bool) :
    (l.filter (fun p => q p.1)).map Prod.fst = (l.map Prod.fst).filter q := by
  induction l with
  | nil => rfl
  | cons p l ih => by_cases h : q p.1 <;> simp [h, ih]

theorem sids_filter (seq : List CPVRChannelGroupMember) (q : StorageId → Bool) :
    (seq.filter (fun m => q m.channel.storageId)).map (fun m => m.channel.storageId)
      = (seq.map (fun m => m.channel.storageId)).filter q := by
  induction seq with
  | nil => rfl
  | cons m seq ih => by_cases h : q m.channel.storageId <;> simp [h, ih]

theorem findMember_some_consistent {l : List (StorageId × CPVRChannelGroupMember)}
    {k : StorageId} {v : CPVRChannelGroupMember} (hfind : findMember l k = some v)
    (hc : EntriesConsistent l) : v.channel.storageId = k := by
  induction l with
  | nil => simp [findMember] at hfind
  | cons p l ih =>
    by_cases h : p.1 = k
    · rw [findMember, if_pos h] at hfind
      cases hfind
      exact (hc p (by simp)).trans h
    · rw [findMember, if_neg h] at hfind
      exact ih hfind (fun q hq => hc q (by simp [hq]))

theorem entriesConsistent_updateEntryNums
    {l : List (StorageId × CPVRChannelGroupMember)} {k : StorageId}
    {num ccn : CPVRChannelNumber} (hc : EntriesConsistent l) :
    EntriesConsistent (updateEntryNums l k num ccn) := by
  intro p hp
  rcases List.mem_map.mp hp with ⟨q, hq, rfl⟩
  by_cases h : q.1 = k <;> simp [h, hc q hq]

theorem entriesConsistent_updateEntryPriority
    {l : List (StorageId × CPVRChannelGroupMember)} {k : StorageId} {prio : Int}
    (hc : EntriesConsistent l) :
    EntriesConsistent (updateEntryPriority l k prio) := by
  intro p hp
  rcases List.mem_map.mp hp with ⟨q, hq, rfl⟩
  by_cases h : q.1 = k <;> simp [h, hc q hq]

theorem entriesConsistent_updateEntryCcnOrder
    {l : List (StorageId × CPVRChannelGroupMember)} {k : StorageId}
    {ccn : CPVRChannelNumber} {iOrder : Int} (hc : EntriesConsistent l) :
    EntriesConsistent (updateEntryCcnOrder l k ccn iOrder) := by
  intro p hp
  rcases List.mem_map.mp hp with ⟨q, hq, rfl⟩
  by_cases h : q.1 = k <;> simp [h, hc q hq]

theorem entriesConsistent_renumberLoop {g : CPVRChannelGroup} {u sfo : Bool}
    {mode : RenumberMode} {seq : List CPVRChannelGroupMember}
    {mp : List (StorageId × CPVRChannelGroupMember)} {b : Bool} {c : Nat}
    (hc : EntriesConsistent mp) :
    EntriesConsistent (renumberLoop g u sfo mode seq mp b c).2.1 := by
  induction seq generalizing mp b c with
  | nil => exact hc
  | cons hd tl ih =>
    rw [renumberLoop]
    split
    · exact ih (entriesConsistent_updateEntryNums hc)
    · exact ih hc

theorem renumberLoop_fst_sids (g : CPVRChannelGroup) (u sfo : Bool)
    (mode : RenumberMode) (seq : List CPVRChannelGroupMember)
    (mp : List (StorageId × CPVRChannelGroupMember)) (b : Bool) (c : Nat) :
    ((renumberLoop g u sfo mode seq mp b c).1).map (fun m => m.channel.storageId)
      = seq.map (fun m => m.channel.storageId) := by
  induction seq generalizing mp b c with
  | nil => rfl
  | cons hd tl ih =>
    rw [renumberLoop]
    split <;> simp [ih]

theorem sortOp_sorted_perm (g : CPVRChannelGroup) :
    List.Perm (sortOp g).sortedMembers g.sortedMembers := by
  unfold sortOp sortByClientChannelNumber sortByChannelNumber
  split <;> split
  · exact sortMembers_perm _ _
  · exact List.Perm.refl _
  · exact sortMembers_perm _ _
  · exact List.Perm.refl _

theorem wf_sortOp {g : CPVRChannelGroup} (h : Wf g) : Wf (sortOp g) := by
  obtain ⟨h1, h2, h3⟩ := h
  refine ⟨?_, ?_, ?_⟩
  · rw [(sortOp_fields g).2.1]
    exact h1
  · rw [(sortOp_fields g).2.1]
    exact h2
  · rw [(sortOp_fields g).2.1]
    exact h3.trans ((sortOp_sorted_perm g).map _).symm

theorem wf_renumber {g : CPVRChannelGroup} (mode : RenumberMode) (env : Env)
    (h : Wf g) : Wf (renumber g mode env).1 := by
  rw [renumber]
  split
  · exact h
  · refine wf_sortOp ⟨?_, ?_, ?_⟩
    · exact entriesConsistent_renumberLoop h.1
    · rw [renumberLoop_keys]
      exact h.2.1
    · rw [renumberLoop_keys, renumberLoop_fst_sids]
      exact h.2.2

theorem wf_sortAndRenumber {g : CPVRChannelGroup} (env : Env) (h : Wf g) :
    Wf (sortAndRenumber g env).1 := by
  rw [sortAndRenumber]
  split
  · exact h
  · exact wf_renumber _ _ (wf_sortOp h)

theorem wf_unload (g : CPVRChannelGroup) : Wf (unload g) := by
  refine ⟨?_, ?_, ?_⟩ <;> simp [unload, EntriesConsistent]

theorem wf_addToGroup {g : CPVRChannelGroup} {ch : CPVRChannel}
    {channelNumber : CPVRChannelNumber} {iOrder : Int} {bU : Bool}
    {clientChannelNumber : CPVRChannelNumber} {env : Env}
    (h : Wf g) (ha : AcgWf g) :
    Wf (addToGroup g ch channelNumber iOrder bU clientChannelNumber env).1 := by
  rw [addToGroup]
  by_cases hmem : isGroupMember g ch
  · simp only [hmem, Bool.not_true, Bool.false_eq_true, if_false]
    exact h
  · simp only [Bool.not_eq_true] at hmem
    simp only [hmem, Bool.not_false, if_true]
    rcases hrm : (if isInternalGroup g then findMember g.members ch.storageId
        else findMember g.acgMembers ch.storageId) with _ | rm
    · exact h
    · have hk : rm.channel.storageId = ch.storageId := by
        by_cases hint : isInternalGroup g
        · rw [if_pos hint] at hrm
          exact findMember_some_consistent hrm h.1
        · rw [if_neg hint] at hrm
          exact findMember_some_consistent hrm ha
      have hnone : findMember g.members ch.storageId = none := by
        rw [isGroupMember] at hmem
        rcases hfm : findMember g.members ch.storageId with _ | m
        · rfl
        · rw [hfm] at hmem
          simp at hmem
      have hnotin : ch.storageId ∉ g.members.map Prod.fst := by
        intro hin
        rw [← findMember_isSome_iff] at hin
        rw [hnone] at hin
        simp at hin
      refine wf_sortAndRenumber _ ⟨?_, ?_, ?_⟩ <;>
        simp only [insertPair, hk, hnone, Option.isSome_none, Bool.false_eq_true,
          if_false]
      · intro p hp
        rcases List.mem_append.mp hp with hp | hp
        · exact h.1 p hp
        · simp only [List.mem_singleton] at hp
          subst hp
          exact hk
      · rw [List.map_append]
        rw [List.nodup_append]
        refine ⟨h.2.1, by simp, ?_⟩
        intro j hj hj'
        simp only [List.map_cons, List.map_nil, List.mem_singleton] at hj'
        rw [hj'] at hj
        exact hnotin hj
      · rw [List.map_append, List.map_append]
        exact h.2.2.append (by simp [hk])

theorem map_sid_eraseP {seq : List CPVRChannelGroupMember} {ch : CPVRChannel}
    (hnd : (seq.map (fun m => m.channel.storageId)).Nodup)
    (hin : ch.storageId ∈ seq.map (fun m => m.channel.storageId)) :
    ((seq.eraseP (fun m' => chanEq ch m'.channel)).map (fun m' => m'.channel.storageId))
      = (seq.map (fun m => m.channel.storageId)).filter
          (fun j => !(j = ch.storageId : Bool)) := by
  induction seq with
  | nil => simp at hin
  | cons hd tl ih =>
    simp only [List.map_cons] at hnd hin ⊢
    rcases List.pairwise_cons.mp hnd with ⟨hhd, hnd'⟩
    by_cases hh : ch.storageId = hd.channel.storageId
    · rw [List.eraseP_cons_of_pos (by simp [chanEq, hh])]
      rw [List.filter_cons_of_neg (by simp [hh.symm])]
      refine (List.filter_eq_self.mpr ?_).symm
      intro j hj
      have : hd.channel.storageId ≠ j := hhd j hj
      simp only [Bool.not_eq_true', decide_eq_false_iff_not]
      intro hje
      exact this (by rw [hje, hh])
    · rw [List.eraseP_cons_of_neg (by simp [chanEq, hh])]
      have hne : ¬(hd.channel.storageId = ch.storageId) := fun hc => hh hc.symm
      rw [List.filter_cons_of_pos (by simp [hne])]
      rcases List.mem_cons.mp hin with hin' | hin'
      · exact absurd hin' hh
      · rw [List.map_cons, ih hnd' hin']

theorem wf_removeFromGroup {g : CPVRChannelGroup} {ch : CPVRChannel} {env : Env}
    (h : Wf g) : Wf (removeFromGroup g ch env).1 := by
  rcases hfind : g.sortedMembers.find? (fun m' => chanEq ch m'.channel) with _ | m
  · rw [removeFromGroup, hfind]
    exact h
  · rw [removeFromGroup, hfind]
    have hmem : m ∈ g.sortedMembers :=
      @List.mem_of_find?_eq_some _ (fun m' => chanEq ch m'.channel) m
        g.sortedMembers hfind
    have hpred : chanEq ch m.channel = true := by
      have := @List.find?_some _ (fun m' => chanEq ch m'.channel) m
        g.sortedMembers hfind
      simpa using this
    have hsid : ch.storageId = m.channel.storageId := by
      simpa [chanEq] using hpred
    have hnd : (g.sortedMembers.map (fun m => m.channel.storageId)).Nodup :=
      h.2.2.nodup h.2.1
    have hin : ch.storageId ∈ g.sortedMembers.map (fun m => m.channel.storageId) := by
      rw [hsid]
      exact List.mem_map.mpr ⟨m, hmem, rfl⟩
    refine wf_renumber _ _ ⟨?_, ?_, ?_⟩
    · dsimp only
      rw [eraseKey_eq_filter]
      intro p hp
      exact h.1 p (List.mem_filter.mp hp).1
    · dsimp only
      rw [eraseKey_eq_filter, keys_filter_fst g.members
        (fun j => !(j = m.channel.storageId : Bool))]
      exact h.2.1.filter _
    · dsimp only
      rw [eraseKey_eq_filter, keys_filter_fst g.members
        (fun j => !(j = m.channel.storageId : Bool)), map_sid_eraseP hnd hin, ← hsid]
      exact h.2.2.filter _

/-- The storage ids of the members the reconciliation removal pass deletes. -/
def missKeys (snap : List (StorageId × CPVRChannelGroupMember))
    (seq : List CPVRChannelGroupMember) : List StorageId :=
  (seq.filter (fun m => (findMember snap m.channel.storageId).isNone)).map
    (fun m => m.channel.storageId)

theorem missKeys_cons_miss {snap : List (StorageId × CPVRChannelGroupMember)}
    {hd : CPVRChannelGroupMember} {tl : List CPVRChannelGroupMember}
    (h : (findMember snap hd.channel.storageId).isNone = true) :
    missKeys snap (hd :: tl) = hd.channel.storageId :: missKeys snap tl := by
  simp [missKeys, h]

theorem missKeys_cons_hit {snap : List (StorageId × CPVRChannelGroupMember)}
    {hd : CPVRChannelGroupMember} {tl : List CPVRChannelGroupMember}
    (h : (findMember snap hd.channel.storageId).isNone = false) :
    missKeys snap (hd :: tl) = missKeys snap tl := by
  simp [missKeys, h]

theorem rdcLoop_fst_eq (snap : List (StorageId × CPVRChannelGroupMember))
    (failed : List Int) (seq : List CPVRChannelGroupMember)
    (mp : List (StorageId × CPVRChannelGroupMember)) :
    (removeDeletedChannelsLoop snap failed seq mp).1
      = seq.filter (fun m => (findMember snap m.channel.storageId).isSome) := by
  induction seq generalizing mp with
  | nil => rfl
  | cons hd tl ih =>
    by_cases hmiss : (findMember snap hd.channel.storageId).isNone
    · have hs : (findMember snap hd.channel.storageId).isSome = false := by
        rcases hf : findMember snap hd.channel.storageId with _ | v
        · rfl
        · rw [hf] at hmiss
          simp at hmiss
      rw [removeDeletedChannelsLoop, List.filter_cons]
      simp only [hmiss, if_true, hs, Bool.false_eq_true, if_false]
      split <;> exact ih _
    · have hs : (findMember snap hd.channel.storageId).isSome = true := by
        rcases hf : findMember snap hd.channel.storageId with _ | v
        · rw [hf] at hmiss
          simp at hmiss
        · rfl
      rw [removeDeletedChannelsLoop, List.filter_cons]
      simp only [hmiss, Bool.false_eq_true, if_false, hs, if_true]
      show hd :: (removeDeletedChannelsLoop snap failed tl mp).1 = _
      rw [ih]

theorem rdcLoop_map_eq (snap : List (StorageId × CPVRChannelGroupMember))
    (failed : List Int) (seq : List CPVRChannelGroupMember)
    (mp : List (StorageId × CPVRChannelGroupMember)) :
    (removeDeletedChannelsLoop snap failed seq mp).2.1
      = mp.filter (fun p => !(keyMem p.1 (missKeys snap seq))) := by
  induction seq generalizing mp with
  | nil =>
    refine (List.filter_eq_self.mpr ?_).symm
    intro p _
    simp [missKeys, keyMem]
  | cons hd tl ih =>
    by_cases hmiss : (findMember snap hd.channel.storageId).isNone
    · rw [missKeys_cons_miss hmiss]
      have hfun : (fun (p : StorageId × CPVRChannelGroupMember) =>
            !(keyMem p.1 (hd.channel.storageId :: missKeys snap tl)))
          = (fun p => (!(keyMem p.1 (missKeys snap tl))) && !(p.1 = hd.channel.storageId : Bool)) := by
        funext p
        by_cases hph : hd.channel.storageId = p.1
        · simp [keyMem, hph]
        · have : ¬(p.1 = hd.channel.storageId) := fun hc => hph hc.symm
          simp [keyMem, hph, this]
      rw [removeDeletedChannelsLoop]
      simp only [hmiss, if_true]
      have hrec : ∀ mp', (removeDeletedChannelsLoop snap failed tl mp').2.1
          = mp'.filter (fun p => !(keyMem p.1 (missKeys snap tl))) := fun mp' => ih mp'
      have hbody : (removeDeletedChannelsLoop snap failed tl
            (eraseKey mp hd.channel.storageId)).2.1
          = mp.filter (fun p =>
              !(keyMem p.1 (hd.channel.storageId :: missKeys snap tl))) := by
        rw [hrec, eraseKey_eq_filter, List.filter_filter, hfun]
      split <;> exact hbody
    · have hmiss' : (findMember snap hd.channel.storageId).isNone = false := by
        rcases hf : findMember snap hd.channel.storageId with _ | v
        · rw [hf] at hmiss
          simp at hmiss
        · simp [hf]
      rw [missKeys_cons_hit hmiss']
      rw [removeDeletedChannelsLoop]
      simp only [hmiss', Bool.false_eq_true, if_false]
      exact ih mp

theorem wf_removeDeletedChannels {g : CPVRChannelGroup}
    {snap : List (StorageId × CPVRChannelGroupMember)} (h : Wf g) :
    Wf (removeDeletedChannels g snap).1 := by
  obtain ⟨h1, h2, h3⟩ := h
  have hptw : ∀ j ∈ g.members.map Prod.fst,
      (!(keyMem j (missKeys snap g.sortedMembers)))
        = (findMember snap j).isSome := by
    intro j hj
    have hjs : j ∈ g.sortedMembers.map (fun m => m.channel.storageId) :=
      h3.mem_iff.mp hj
    rcases List.mem_map.mp hjs with ⟨m, hm, rfl⟩
    rcases hfm : findMember snap m.channel.storageId with _ | v
    · have : keyMem m.channel.storageId (missKeys snap g.sortedMembers) = true := by
        rw [keyMem_iff]
        refine List.mem_map.mpr ⟨m, ?_, rfl⟩
        rw [List.mem_filter]
        exact ⟨hm, by simp [hfm]⟩
      simp [this, hfm]
    · have : keyMem m.channel.storageId (missKeys snap g.sortedMembers) = false := by
        rcases hkm : keyMem m.channel.storageId (missKeys snap g.sortedMembers) with _ | _
        · rfl
        · rw [keyMem_iff] at hkm
          rcases List.mem_map.mp hkm with ⟨m', hm', hsid'⟩
          rcases List.mem_filter.mp hm' with ⟨_, hnone⟩
          rw [hsid'] at hnone
          rw [hfm] at hnone
          simp at hnone
      simp [this, hfm]
  refine ⟨?_, ?_, ?_⟩
  · show EntriesConsistent (removeDeletedChannelsLoop snap g.failedClients
      g.sortedMembers g.members).2.1
    rw [rdcLoop_map_eq]
    intro p hp
    exact h1 p (List.mem_filter.mp hp).1
  · show ((removeDeletedChannelsLoop snap g.failedClients
      g.sortedMembers g.members).2.1.map Prod.fst).Nodup
    rw [rdcLoop_map_eq, keys_filter_fst g.members
      (fun j => !(keyMem j (missKeys snap g.sortedMembers)))]
    exact h2.filter _
  · show List.Perm ((removeDeletedChannelsLoop snap g.failedClients
        g.sortedMembers g.members).2.1.map Prod.fst)
      ((removeDeletedChannelsLoop snap g.failedClients
        g.sortedMembers g.members).1.map (fun m => m.channel.storageId))
    rw [rdcLoop_map_eq, rdcLoop_fst_eq, keys_filter_fst g.members
      (fun j => !(keyMem j (missKeys snap g.sortedMembers))),
      sids_filter g.sortedMembers (fun s => (findMember snap s).isSome),
      List.filter_congr hptw]
    exact h3.filter _

/-! ### Preservation lemmas for the reconciliation pipeline -/

theorem findMember_eq_none_iff {l : List (StorageId × CPVRChannelGroupMember)}
    {k : StorageId} : findMember l k = none ↔ k ∉ l.map Prod.fst := by
  constructor
  · intro h hk
    rw [← findMember_isSome_iff] at hk
    rw [h] at hk
    simp at hk
  · intro hk
    rcases h : findMember l k with _ | v
    · rfl
    · exfalso
      exact hk (findMember_isSome_iff.mp (by rw [h]; rfl))

theorem findMember_none_forall {l : List (StorageId × CPVRChannelGroupMember)}
    {k : StorageId} (h : findMember l k = none) : ∀ p ∈ l, p.1 ≠ k := by
  intro p hp hep
  rw [findMember_eq_none_iff] at h
  exact h (List.mem_map.mpr ⟨p, hp, hep⟩)

theorem findMember_append_single_none
    {l : List (StorageId × CPVRChannelGroupMember)} {k' s : StorageId}
    {v : CPVRChannelGroupMember} (hnone : findMember l s = none) (hk : k' ≠ s) :
    findMember (l ++ [(k', v)]) s = none := by
  rw [findMember_eq_none_iff] at hnone ⊢
  rw [List.map_append]
  intro hmem
  rcases List.mem_append.mp hmem with hmem | hmem
  · exact hnone hmem
  · simp only [List.map_cons, List.map_nil, List.mem_singleton] at hmem
    exact hk hmem.symm

theorem renumber_fields (g : CPVRChannelGroup) (mode : RenumberMode) (env : Env) :
    (renumber g mode env).1.acgMembers = g.acgMembers ∧
    (renumber g mode env).1.groupType = g.groupType ∧
    (renumber g mode env).1.preventSortAndRenumber = g.preventSortAndRenumber ∧
    (renumber g mode env).1.usingBackendChannelOrder = g.usingBackendChannelOrder := by
  rw [renumber]
  split
  · exact ⟨rfl, rfl, rfl, rfl⟩
  · exact ⟨(sortOp_fields _).2.2.1, (sortOp_fields _).2.2.2.1, (sortOp_fields _).1,
      (sortOp_fields _).2.2.2.2.1⟩

theorem sortAndRenumber_fields (g : CPVRChannelGroup) (env : Env) :
    (sortAndRenumber g env).1.acgMembers = g.acgMembers ∧
    (sortAndRenumber g env).1.groupType = g.groupType ∧
    (sortAndRenumber g env).1.preventSortAndRenumber = g.preventSortAndRenumber ∧
    (sortAndRenumber g env).1.usingBackendChannelOrder = g.usingBackendChannelOrder := by
  rw [sortAndRenumber]
  split
  · exact ⟨rfl, rfl, rfl, rfl⟩
  · refine ⟨?_, ?_, ?_, ?_⟩
    · rw [(renumber_fields _ _ _).1, (sortOp_fields _).2.2.1]
    · rw [(renumber_fields _ _ _).2.1, (sortOp_fields _).2.2.2.1]
    · rw [(renumber_fields _ _ _).2.2.1, (sortOp_fields _).1]
    · rw [(renumber_fields _ _ _).2.2.2, (sortOp_fields _).2.2.2.2.1]

theorem renumber_sids_perm (g : CPVRChannelGroup) (mode : RenumberMode) (env : Env) :
    List.Perm ((renumber g mode env).1.sortedMembers.map (fun m => m.channel.storageId))
      (g.sortedMembers.map (fun m => m.channel.storageId)) := by
  rw [renumber]
  split
  · exact List.Perm.refl _
  · refine ((sortOp_sorted_perm _).map _).trans ?_
    rw [renumberLoop_fst_sids]

theorem sortAndRenumber_sids_perm (g : CPVRChannelGroup) (env : Env) :
    List.Perm
      ((sortAndRenumber g env).1.sortedMembers.map (fun m => m.channel.storageId))
      (g.sortedMembers.map (fun m => m.channel.storageId)) := by
  rw [sortAndRenumber]
  split
  · exact List.Perm.refl _
  · exact (renumber_sids_perm _ _ _).trans ((sortOp_sorted_perm _).map _)

theorem sortAndRenumber_sid_mem {g : CPVRChannelGroup} {env : Env}
    {m' : CPVRChannelGroupMember}
    (hm : m' ∈ (sortAndRenumber g env).1.sortedMembers) :
    m'.channel.storageId ∈ g.sortedMembers.map (fun m => m.channel.storageId) :=
  (sortAndRenumber_sids_perm g env).mem_iff.mp (List.mem_map.mpr ⟨m', hm, rfl⟩)

theorem addToGroup_acgMembers (g : CPVRChannelGroup) (ch : CPVRChannel)
    (num : CPVRChannelNumber) (iOrder : Int) (bU : Bool) (ccn : CPVRChannelNumber)
    (env : Env) :
    (addToGroup g ch num iOrder bU ccn env).1.acgMembers = g.acgMembers := by
  rw [addToGroup]
  split
  · split
    · rfl
    · exact (sortAndRenumber_fields _ _).1
  · rfl

theorem persist_membership (g : CPVRChannelGroup) (env : Env) :
    (persist g env).1.members = g.members ∧
    (persist g env).1.sortedMembers = g.sortedMembers := by
  rw [persist]
  split
  · exact ⟨rfl, rfl⟩
  · split <;> split <;> exact ⟨rfl, rfl⟩

theorem ucpLoop_fst_sids (g : CPVRChannelGroup) (env : Env)
    (seq : List CPVRChannelGroupMember)
    (mp : List (StorageId × CPVRChannelGroupMember)) :
    ((updateClientPrioritiesLoop g env seq mp).1).map (fun m => m.channel.storageId)
      = seq.map (fun m => m.channel.storageId) := by
  induction seq generalizing mp with
  | nil => rfl
  | cons hd tl ih =>
    rw [updateClientPrioritiesLoop]
    split
    · split <;> simp [ih]
    · simp [ih]

theorem ucpLoop_keys (g : CPVRChannelGroup) (env : Env)
    (seq : List CPVRChannelGroupMember)
    (mp : List (StorageId × CPVRChannelGroupMember)) :
    ((updateClientPrioritiesLoop g env seq mp).2.1).map Prod.fst = mp.map Prod.fst := by
  induction seq generalizing mp with
  | nil => rfl
  | cons hd tl ih =>
    rw [updateClientPrioritiesLoop]
    split
    · split
      · exact ih mp
      · rw [ih, keys_updateEntryPriority]
    · rw [ih, keys_updateEntryPriority]

theorem rdcLoop_removed_mem {snap : List (StorageId × CPVRChannelGroupMember)}
    {failed : List Int} {seq : List CPVRChannelGroupMember}
    {mp : List (StorageId × CPVRChannelGroupMember)} {m : CPVRChannelGroupMember}
    (hm : m ∈ seq) (hmiss : findMember snap m.channel.storageId = none)
    (hfail : failed.contains m.channel.clientId = false) :
    m.channel ∈ (removeDeletedChannelsLoop snap failed seq mp).2.2 := by
  induction seq generalizing mp with
  | nil => simp at hm
  | cons hd tl ih =>
    rcases List.mem_cons.mp hm with rfl | hm
    · rw [removeDeletedChannelsLoop]
      simp only [hmiss, Option.isNone_none, if_true, hfail, Bool.not_false]
      simp
    · rw [removeDeletedChannelsLoop]
      split
      · split
        · exact List.mem_cons_of_mem _ (ih hm)
        · exact ih hm
      · exact ih hm

theorem wf_updateCcnOrder {g : CPVRChannelGroup} {k : StorageId}
    {ccn : CPVRChannelNumber} {ord : Int} (h : Wf g) :
    Wf { g with
      members := updateEntryCcnOrder g.members k ccn ord
      sortedMembers := g.sortedMembers.map (fun m =>
        if m.channel.storageId = k then
          { m with clientChannelNumber := ccn, order := ord } else m) } := by
  refine ⟨entriesConsistent_updateEntryCcnOrder h.1, ?_, ?_⟩
  · dsimp only
    rw [keys_updateEntryCcnOrder]
    exact h.2.1
  · dsimp only
    rw [keys_updateEntryCcnOrder, List.map_map]
    have heq : g.sortedMembers.map ((fun m => m.channel.storageId) ∘ (fun m =>
        if m.channel.storageId = k then
          { m with clientChannelNumber := ccn, order := ord } else m))
        = g.sortedMembers.map (fun m => m.channel.storageId) := by
      refine List.map_congr_left ?_
      intro m _
      by_cases hm : m.channel.storageId = k <;> simp [Function.comp, hm]
    rw [heq]
    exact h.2.2

theorem updateCcnOrder_sids (g : CPVRChannelGroup) (k : StorageId)
    (ccn : CPVRChannelNumber) (ord : Int) :
    (g.sortedMembers.map (fun m =>
        if m.channel.storageId = k then
          { m with clientChannelNumber := ccn, order := ord } else m)).map
      (fun m => m.channel.storageId)
      = g.sortedMembers.map (fun m => m.channel.storageId) := by
  rw [List.map_map]
  refine List.map_congr_left ?_
  intro m _
  by_cases hm : m.channel.storageId = k <;> simp [Function.comp, hm]

theorem addToGroup_no_new_sid {g : CPVRChannelGroup} {ch : CPVRChannel}
    {num : CPVRChannelNumber} {iOrder : Int} {bU : Bool} {ccn : CPVRChannelNumber}
    {env : Env} {s : StorageId} (hW : Wf g) (hA : AcgWf g)
    (hch : ch.storageId ≠ s) (hnone : findMember g.members s = none)
    (hseq : ∀ m' ∈ g.sortedMembers, m'.channel.storageId ≠ s) :
    findMember (addToGroup g ch num iOrder bU ccn env).1.members s = none ∧
    ∀ m' ∈ (addToGroup g ch num iOrder bU ccn env).1.sortedMembers,
      m'.channel.storageId ≠ s := by
  rw [addToGroup]
  by_cases hmem : isGroupMember g ch
  · simp only [hmem, Bool.not_true, Bool.false_eq_true, if_false]
    exact ⟨hnone, hseq⟩
  · simp only [Bool.not_eq_true] at hmem
    simp only [hmem, Bool.not_false, if_true]
    rcases hrm : (if isInternalGroup g then findMember g.members ch.storageId
        else findMember g.acgMembers ch.storageId) with _ | rm
    · exact ⟨hnone, hseq⟩
    · have hk : rm.channel.storageId = ch.storageId := by
        by_cases hint : isInternalGroup g
        · rw [if_pos hint] at hrm
          exact findMember_some_consistent hrm hW.1
        · rw [if_neg hint] at hrm
          exact findMember_some_consistent hrm hA
      have hnoneCh : findMember g.members ch.storageId = none := by
        rw [isGroupMember] at hmem
        rcases hfm : findMember g.members ch.storageId with _ | v
        · rfl
        · rw [hfm] at hmem
          simp at hmem
      have hins : ∀ v, insertPair g.members rm.channel.storageId v
          = g.members ++ [(rm.channel.storageId, v)] := by
        intro v
        rw [insertPair, hk, hnoneCh]
        rfl
      constructor
      · rw [findMember_eq_none_iff, sortAndRenumber_members_keys]
        dsimp only
        rw [hins, List.map_append]
        intro hmm
        rcases List.mem_append.mp hmm with hmm | hmm
        · exact (findMember_eq_none_iff.mp hnone) hmm
        · simp only [List.map_cons, List.map_nil, List.mem_singleton] at hmm
          rw [hmm, hk] at hch
          exact hch rfl
      · intro m' hm'
        have hsid := sortAndRenumber_sid_mem hm'
        dsimp only at hsid
        rw [List.map_append] at hsid
        rcases List.mem_append.mp hsid with hsid | hsid
        · rcases List.mem_map.mp hsid with ⟨m0, hm0, heq⟩
          rw [← heq]
          exact hseq m0 hm0
        · simp only [List.map_cons, List.map_nil, List.mem_singleton] at hsid
          rw [hsid, hk]
          exact hch

theorem wf_addToGroup_acg {g : CPVRChannelGroup} {ch : CPVRChannel}
    {num : CPVRChannelNumber} {iOrder : Int} {bU : Bool} {ccn : CPVRChannelNumber}
    {env : Env} (hA : AcgWf g) :
    AcgWf (addToGroup g ch num iOrder bU ccn env).1 := by
  show EntriesConsistent (addToGroup g ch num iOrder bU ccn env).1.acgMembers
  rw [addToGroup_acgMembers]
  exact hA

theorem aauLoop_no_return {bU : Bool} {env : Env} {s : StorageId} :
    ∀ {snapList : List (StorageId × CPVRChannelGroupMember)}
      (_ : ∀ p ∈ snapList, p.1 ≠ s) {G : CPVRChannelGroup} {b : Bool},
      Wf G → AcgWf G → findMember G.members s = none →
      (∀ m' ∈ G.sortedMembers, m'.channel.storageId ≠ s) →
      findMember (addAndUpdateChannelsLoop bU env snapList G b).1.members s = none ∧
      ∀ m' ∈ (addAndUpdateChannelsLoop bU env snapList G b).1.sortedMembers,
        m'.channel.storageId ≠ s := by
  intro snapList
  induction snapList with
  | nil =>
    intro _ G b _ _ hnone hseq
    exact ⟨hnone, hseq⟩
  | cons hd tl ih =>
    intro hks G b hW hA hnone hseq
    have hkhd : hd.1 ≠ s := hks hd (by simp)
    have hktl : ∀ p ∈ tl, p.1 ≠ s := fun p hp => hks p (by simp [hp])
    rw [addAndUpdateChannelsLoop]
    rcases hacg : findMember G.acgMembers hd.1 with _ | am
    · exact ih hktl hW hA hnone hseq
    · have hamsid : am.channel.storageId = hd.1 := findMember_some_consistent hacg hA
      by_cases hgm : isGroupMember G am.channel
      · simp only [hgm, Bool.not_true, Bool.false_eq_true, if_false]
        split
        · -- the group's own map misses the key: sentinel branch
          split
          · exact ih hktl hW hA hnone hseq
          · exact ih hktl hW hA hnone hseq
        · -- existing member: in-place update when the numbers differ
          split
          · have hprops : findMember ({ G with
                members := updateEntryCcnOrder G.members hd.1 hd.2.clientChannelNumber
                  hd.2.order
                sortedMembers := G.sortedMembers.map (fun m =>
                  if m.channel.storageId = hd.1 then
                    { m with clientChannelNumber := hd.2.clientChannelNumber,
                             order := hd.2.order } else m) } :
                  CPVRChannelGroup).members s = none := by
              rw [findMember_eq_none_iff]
              dsimp only
              rw [keys_updateEntryCcnOrder]
              exact findMember_eq_none_iff.mp hnone
            refine ih hktl (wf_updateCcnOrder hW) hA hprops ?_
            intro m' hm'
            dsimp only at hm'
            rcases List.mem_map.mp hm' with ⟨m0, hm0, heq⟩
            by_cases hm0k : m0.channel.storageId = hd.1
            · rw [← heq]
              simp only [hm0k, if_true]
              exact hkhd
            · rw [← heq]
              simp only [hm0k, if_false]
              exact hseq m0 hm0
          · exact ih hktl hW hA hnone hseq
      · simp only [Bool.not_eq_true] at hgm
        simp only [hgm, Bool.not_false, if_true]
        have hchs : am.channel.storageId ≠ s := by
          rw [hamsid]
          exact hkhd
        have hadd := @addToGroup_no_new_sid G am.channel hd.2.channelNumber hd.2.order
          bU hd.2.clientChannelNumber env s hW hA hchs hnone hseq
        exact ih hktl (wf_addToGroup hW hA) (wf_addToGroup_acg hA) hadd.1 hadd.2

theorem wf_length {g : CPVRChannelGroup} (h : Wf g) :
    g.members.length = g.sortedMembers.length := by
  have := h.2.2.length_eq
  simpa using this

/-! ### Idempotence analysis of `SortAndRenumber` -/

/-- The client channel number `Renumber` settles on for a member: its own when
valid, otherwise the all-channels group's. -/
def ccnOf (g : CPVRChannelGroup) (m : CPVRChannelGroupMember) : CPVRChannelNumber :=
  if m.clientChannelNumber.isValid then m.clientChannelNumber
  else acgClientChannelNumber g m.channel

/-- The group-local number `Renumber` assigns in the configurations that do
not consume the sequential counter. -/
def ptF (g : CPVRChannelGroup) (u : Bool) (m : CPVRChannelGroupMember) :
    CPVRChannelNumber :=
  if u then ccnOf g m
  else if m.channel.isHidden then ⟨0, 0⟩
  else acgChannelNumber g m.channel

/-- The member list produced by `Renumber`'s loop, with every member carrying
its computed numbers. -/
def applyTargets (g : CPVRChannelGroup) (u s : Bool) (mode : RenumberMode) :
    List CPVRChannelGroupMember → Nat → List CPVRChannelGroupMember
  | [], _ => []
  | m :: rest, c =>
    let t := renumberTarget g u s mode c m
    { m with channelNumber := t.1, clientChannelNumber := t.2.1 } ::
      applyTargets g u s mode rest t.2.2

/-- The renumbering pass finds nothing to change: every member already carries
the numbers the pass would compute for it (threading the counter). -/
def numTargetsStable (g : CPVRChannelGroup) (u s : Bool) (mode : RenumberMode) :
    List CPVRChannelGroupMember → Nat → Prop
  | [], _ => True
  | m :: rest, c =>
    (renumberTarget g u s mode c m).1 = m.channelNumber ∧
    (renumberTarget g u s mode c m).2.1 = m.clientChannelNumber ∧
    numTargetsStable g u s mode rest (renumberTarget g u s mode c m).2.2

/-- The number layout left by a counter-consuming renumbering pass: hidden
members carry (0,0); visible members carry consecutive numbers from c+1 on. -/
def counterPattern : List CPVRChannelGroupMember → Nat → Prop
  | [], _ => True
  | m :: rest, c =>
    if m.channel.isHidden then
      m.channelNumber = ⟨0, 0⟩ ∧ counterPattern rest c
    else m.channelNumber = ⟨c + 1, 0⟩ ∧ counterPattern rest (c + 1)

theorem renumberTarget_ccn (g : CPVRChannelGroup) (u s : Bool) (mode : RenumberMode)
    (c : Nat) (m : CPVRChannelGroupMember) :
    (renumberTarget g u s mode c m).2.1 = ccnOf g m := by
  rw [renumberTarget, ccnOf]
  split_ifs <;> rfl

theorem renumberTarget_counter_cf (g : CPVRChannelGroup) {u s : Bool}
    (mode : RenumberMode) (c : Nat) (m : CPVRChannelGroupMember)
    (hcf : u = true ∨ (isInternalGroup g = false ∧ s = false)) :
    renumberTarget g u s mode c m = (ptF g u m, ccnOf g m, c) := by
  rcases hcf with hu | ⟨hint, hs⟩
  · rw [renumberTarget, ptF, ccnOf, hu]
    rfl
  · rw [renumberTarget, ptF, ccnOf, hint, hs]
    rcases hu : u
    · simp only [Bool.false_eq_true, if_false]
      by_cases hh : m.channel.isHidden <;> simp [hh]
    · simp

theorem renumberTarget_counter_cc (g : CPVRChannelGroup) {u s : Bool} (c : Nat)
    (m : CPVRChannelGroupMember) (hu : u = false)
    (hcc : isInternalGroup g = true ∨ s = true) :
    renumberTarget g u s RenumberMode.NORMAL c m =
      (if m.channel.isHidden then (⟨0, 0⟩ : CPVRChannelNumber) else ⟨c + 1, 0⟩,
        ccnOf g m, if m.channel.isHidden then c else c + 1) := by
  rw [renumberTarget, ccnOf, hu]
  by_cases hh : m.channel.isHidden
  · simp [hh]
  · rcases hcc with hint | hs
    · simp [hh, hint]
    · by_cases hint : isInternalGroup g <;> simp [hh, hint, hs]

theorem renumberLoop_fst_applyTargets (g : CPVRChannelGroup) (u s : Bool)
    (mode : RenumberMode) (seq : List CPVRChannelGroupMember)
    (mp : List (StorageId × CPVRChannelGroupMember)) (b : Bool) (c : Nat) :
    (renumberLoop g u s mode seq mp b c).1 = applyTargets g u s mode seq c := by
  induction seq generalizing mp b c with
  | nil => rfl
  | cons m rest ih =>
    rw [renumberLoop, applyTargets]
    split
    · dsimp only
      rw [ih]
    · next hcond =>
      push_neg at hcond
      obtain ⟨h1, h2⟩ := hcond
      dsimp only
      rw [ih, ← h1, ← h2]

theorem renumberLoop_of_stable {g : CPVRChannelGroup} {u s : Bool}
    {mode : RenumberMode} {seq : List CPVRChannelGroupMember}
    {mp : List (StorageId × CPVRChannelGroupMember)} {b : Bool} {c : Nat}
    (hstab : numTargetsStable g u s mode seq c) :
    renumberLoop g u s mode seq mp b c = (seq, mp, b) := by
  induction seq generalizing mp b c with
  | nil => rfl
  | cons m rest ih =>
    obtain ⟨h1, h2, h3⟩ := hstab
    rw [renumberLoop, if_neg (by rw [h1, h2]; simp), ih h3]

theorem ccnOf_write (g : CPVRChannelGroup) (m : CPVRChannelGroupMember)
    (x : CPVRChannelNumber) :
    ccnOf g { m with channelNumber := x, clientChannelNumber := ccnOf g m }
      = ccnOf g m := by
  by_cases hv : m.clientChannelNumber.isValid
  · simp [ccnOf, hv]
  · by_cases ha : (acgClientChannelNumber g m.channel).isValid <;>
      simp [ccnOf, hv, ha]

theorem mem_applyTargets {g : CPVRChannelGroup} {u s : Bool} {mode : RenumberMode}
    {seq : List CPVRChannelGroupMember} {c : Nat} {m' : CPVRChannelGroupMember}
    (hm : m' ∈ applyTargets g u s mode seq c) :
    ∃ m c', m ∈ seq ∧ m' = { m with
      channelNumber := (renumberTarget g u s mode c' m).1,
      clientChannelNumber := (renumberTarget g u s mode c' m).2.1 } := by
  induction seq generalizing c with
  | nil => simp [applyTargets] at hm
  | cons hd rest ih =>
    rw [applyTargets] at hm
    rcases List.mem_cons.mp hm with rfl | hm
    · exact ⟨hd, c, by simp, rfl⟩
    · rcases ih hm with ⟨m, c', hmem, heq⟩
      exact ⟨m, c', by simp [hmem], heq⟩

theorem mem_applyTargets_ccnOf {g : CPVRChannelGroup} {u s : Bool}
    {mode : RenumberMode} {seq : List CPVRChannelGroupMember} {c : Nat}
    {m' : CPVRChannelGroupMember} (hm : m' ∈ applyTargets g u s mode seq c) :
    ccnOf g m' = m'.clientChannelNumber := by
  rcases mem_applyTargets hm with ⟨m, c', _, rfl⟩
  rw [renumberTarget_ccn]
  exact ccnOf_write g m _

theorem cp_hidden_mem {l : List CPVRChannelGroupMember} {c : Nat}
    {x : CPVRChannelGroupMember} (hcp : counterPattern l c) (hx : x ∈ l)
    (hxh : x.channel.isHidden = true) : x.channelNumber = ⟨0, 0⟩ := by
  induction l generalizing c with
  | nil => simp at hx
  | cons m rest ih =>
    rcases List.mem_cons.mp hx with rfl | hx
    · simp only [counterPattern, hxh, if_true] at hcp
      exact hcp.1
    · by_cases hmh : m.channel.isHidden
      · simp only [counterPattern, hmh, if_true] at hcp
        exact ih hcp.2 hx
      · simp only [counterPattern, hmh, Bool.false_eq_true, if_false] at hcp
        exact ih hcp.2 hx

theorem cp_visible_num {l : List CPVRChannelGroupMember} {c : Nat}
    {x : CPVRChannelGroupMember} (hcp : counterPattern l c) (hx : x ∈ l)
    (hxv : x.channel.isHidden = false) :
    ∃ j, x.channelNumber = ⟨c + 1 + j, 0⟩ := by
  induction l generalizing c with
  | nil => simp at hx
  | cons m rest ih =>
    rcases List.mem_cons.mp hx with rfl | hx
    · simp only [counterPattern, hxv, Bool.false_eq_true, if_false] at hcp
      exact ⟨0, by simpa using hcp.1⟩
    · by_cases hmh : m.channel.isHidden
      · simp only [counterPattern, hmh, if_true] at hcp
        exact ih hcp.2 hx
      · simp only [counterPattern, hmh, Bool.false_eq_true, if_false] at hcp
        rcases ih hcp.2 hx with ⟨j, hj⟩
        refine ⟨j + 1, ?_⟩
        rw [hj]
        have : c + 1 + 1 + j = c + 1 + (j + 1) := by omega
        rw [this]

theorem cp_first_visible {l : List CPVRChannelGroupMember} {c : Nat}
    {x : CPVRChannelGroupMember} (hcp : counterPattern l c) (hx : x ∈ l)
    (hxv : x.channel.isHidden = false) :
    ∃ y ∈ l, y.channel.isHidden = false ∧ y.channelNumber = ⟨c + 1, 0⟩ := by
  induction l generalizing c with
  | nil => simp at hx
  | cons m rest ih =>
    by_cases hmh : m.channel.isHidden
    · simp only [counterPattern, hmh, if_true] at hcp
      have hxr : x ∈ rest := by
        rcases List.mem_cons.mp hx with rfl | h
        · rw [hmh] at hxv
          cases hxv
        · exact h
      rcases ih hcp.2 hxr with ⟨y, hy, hyv, hyn⟩
      exact ⟨y, List.mem_cons_of_mem _ hy, hyv, hyn⟩
    · simp only [counterPattern, hmh, Bool.false_eq_true, if_false] at hcp
      exact ⟨m, by simp, by simpa using hmh, hcp.1⟩

theorem cp_erase_hidden {l : List CPVRChannelGroupMember} {c : Nat}
    {x : CPVRChannelGroupMember} (hcp : counterPattern l c) (hx : x ∈ l)
    (hxh : x.channel.isHidden = true) : counterPattern (l.erase x) c := by
  induction l generalizing c with
  | nil => trivial
  | cons m rest ih =>
    by_cases hmx : m = x
    · subst hmx
      rw [List.erase_cons_head]
      simp only [counterPattern, hxh, if_true] at hcp
      exact hcp.2
    · rw [List.erase_cons_tail (by simpa using hmx)]
      have hxr : x ∈ rest := by
        rcases List.mem_cons.mp hx with rfl | h
        · exact absurd rfl hmx
        · exact h
      by_cases hmh : m.channel.isHidden
      · simp only [counterPattern, hmh, if_true] at hcp ⊢
        exact ⟨hcp.1, ih hcp.2 hxr⟩
      · simp only [counterPattern, hmh, Bool.false_eq_true, if_false] at hcp ⊢
        exact ⟨hcp.1, ih hcp.2 hxr⟩

theorem cp_erase_first_visible {l : List CPVRChannelGroupMember} {c : Nat}
    {x : CPVRChannelGroupMember} (hcp : counterPattern l c) (hx : x ∈ l)
    (hxn : x.channelNumber = ⟨c + 1, 0⟩)
    (hall : ∀ h ∈ l, h.channel.isHidden = false) :
    counterPattern (l.erase x) (c + 1) := by
  induction l generalizing c with
  | nil => simp at hx
  | cons m rest ih =>
    have hmv : m.channel.isHidden = false := hall m (by simp)
    simp only [counterPattern, hmv, Bool.false_eq_true, if_false] at hcp
    by_cases hmx : m = x
    · subst hmx
      rw [List.erase_cons_head]
      exact hcp.2
    · exfalso
      have hxr : x ∈ rest := by
        rcases List.mem_cons.mp hx with rfl | h
        · exact absurd rfl hmx
        · exact h
      have hxv : x.channel.isHidden = false := hall x hx
      rcases cp_visible_num hcp.2 hxr hxv with ⟨j, hj⟩
      rw [hxn] at hj
      simp only [CPVRChannelNumber.mk.injEq] at hj
      omega

theorem cp_sorted_perm : ∀ {l' l : List CPVRChannelGroupMember} {c : Nat},
    counterPattern l c → List.Perm l' l →
    l'.Pairwise (fun a b => leOf sortByChannelNumberLt a b = true) →
    counterPattern l' c := by
  intro l'
  induction l' with
  | nil =>
    intro l c _ _ _
    trivial
  | cons x l'' ih =>
    intro l c hcp hperm hsort
    obtain ⟨hxl, hl''⟩ := List.cons_perm_iff_perm_erase.mp hperm
    obtain ⟨hxle, hsort'⟩ := List.pairwise_cons.mp hsort
    by_cases hxh : x.channel.isHidden
    · have hx0 := cp_hidden_mem hcp hxl hxh
      have htail := ih (cp_erase_hidden hcp hxl hxh) hl'' hsort'
      simp only [counterPattern, hxh, if_true]
      exact ⟨hx0, htail⟩
    · have hxv : x.channel.isHidden = false := by simpa using hxh
      obtain ⟨y, hy, hyv, hyn⟩ := cp_first_visible hcp hxl hxv
      obtain ⟨j, hj⟩ := cp_visible_num hcp hxl hxv
      have hxn : x.channelNumber = ⟨c + 1, 0⟩ := by
        rcases Nat.eq_zero_or_pos j with rfl | hj0
        · simpa using hj
        · exfalso
          have hyx : y ≠ x := by
            intro he
            rw [he, hj] at hyn
            simp only [CPVRChannelNumber.mk.injEq] at hyn
            omega
          have hy'' : y ∈ l'' := by
            have hmem : y ∈ x :: l'' := hperm.mem_iff.mpr hy
            rcases List.mem_cons.mp hmem with he | h
            · exact absurd he hyx
            · exact h
          have hle := hxle y hy''
          simp only [leOf, sortByChannelNumberLt] at hle
          rw [hyn, hj] at hle
          simp only [CPVRChannelNumber.numLt, Bool.not_eq_true', Bool.or_eq_false_iff,
            decide_eq_false_iff_not] at hle
          omega
      have hnohid : ∀ h ∈ l, h.channel.isHidden = false := by
        intro h hh
        by_cases hhh : h.channel.isHidden
        · exfalso
          have hh0 := cp_hidden_mem hcp hh hhh
          have hhx : h ≠ x := by
            intro he
            rw [he, hxv] at hhh
            cases hhh
          have hh'' : h ∈ l'' := by
            have hmem : h ∈ x :: l'' := hperm.mem_iff.mpr hh
            rcases List.mem_cons.mp hmem with he | hmm
            · exact absurd he hhx
            · exact hmm
          have hle := hxle h hh''
          simp only [leOf, sortByChannelNumberLt] at hle
          rw [hh0, hxn] at hle
          simp only [CPVRChannelNumber.numLt, Bool.not_eq_true', Bool.or_eq_false_iff,
            decide_eq_false_iff_not] at hle
          omega
        · simpa using hhh
      have htail := ih (cp_erase_first_visible hcp hxl hxn hnohid) hl'' hsort'
      simp only [counterPattern, hxv, Bool.false_eq_true, if_false]
      exact ⟨hxn, htail⟩

theorem counterPattern_cons_hidden {m : CPVRChannelGroupMember}
    {rest : List CPVRChannelGroupMember} {c : Nat}
    (hh : m.channel.isHidden = true) (h1 : m.channelNumber = ⟨0, 0⟩)
    (h2 : counterPattern rest c) : counterPattern (m :: rest) c := by
  rw [counterPattern, if_pos hh]
  exact ⟨h1, h2⟩

theorem counterPattern_cons_visible {m : CPVRChannelGroupMember}
    {rest : List CPVRChannelGroupMember} {c : Nat}
    (hh : m.channel.isHidden = false) (h1 : m.channelNumber = ⟨c + 1, 0⟩)
    (h2 : counterPattern rest (c + 1)) : counterPattern (m :: rest) c := by
  rw [counterPattern, if_neg (by simp [hh])]
  exact ⟨h1, h2⟩

theorem cp_applyTargets {g : CPVRChannelGroup} {u s : Bool} (hu : u = false)
    (hcc : isInternalGroup g = true ∨ s = true) :
    ∀ (seq : List CPVRChannelGroupMember) (c : Nat),
      counterPattern (applyTargets g u s RenumberMode.NORMAL seq c) c := by
  intro seq
  induction seq with
  | nil =>
    intro c
    trivial
  | cons m rest ih =>
    intro c
    rw [applyTargets, renumberTarget_counter_cc g c m hu hcc]
    by_cases hh : m.channel.isHidden
    · simp only [hh, if_true]
      exact counterPattern_cons_hidden hh rfl (ih c)
    · simp only [hh, Bool.false_eq_true, if_false]
      exact counterPattern_cons_visible (by simpa using hh) rfl (ih (c + 1))

theorem stable_of_cf {g : CPVRChannelGroup} {u s : Bool} {mode : RenumberMode}
    (hcf : u = true ∨ (isInternalGroup g = false ∧ s = false)) :
    ∀ {seq : List CPVRChannelGroupMember} {c : Nat},
      (∀ m ∈ seq, ptF g u m = m.channelNumber ∧ ccnOf g m = m.clientChannelNumber) →
      numTargetsStable g u s mode seq c := by
  intro seq
  induction seq with
  | nil =>
    intro c _
    trivial
  | cons m rest ih =>
    intro c hptw
    obtain ⟨h1, h2⟩ := hptw m (by simp)
    have ht := renumberTarget_counter_cf g mode c m hcf
    refine ⟨?_, ?_, ?_⟩
    · rw [ht]
      exact h1
    · rw [ht]
      exact h2
    · rw [ht]
      exact ih (fun m' hm' => hptw m' (by simp [hm']))

theorem stable_of_cp {g : CPVRChannelGroup} {u s : Bool} (hu : u = false)
    (hcc : isInternalGroup g = true ∨ s = true) :
    ∀ {seq : List CPVRChannelGroupMember} {c : Nat},
      counterPattern seq c →
      (∀ m ∈ seq, ccnOf g m = m.clientChannelNumber) →
      numTargetsStable g u s RenumberMode.NORMAL seq c := by
  intro seq
  induction seq with
  | nil =>
    intro c _ _
    trivial
  | cons m rest ih =>
    intro c hcp hccn
    have ht := renumberTarget_counter_cc g c m hu hcc
    by_cases hh : m.channel.isHidden
    · simp only [counterPattern, hh, if_true] at hcp
      refine ⟨?_, ?_, ?_⟩
      · rw [ht]
        simp only [hh, if_true]
        exact hcp.1.symm
      · rw [ht]
        exact hccn m (by simp)
      · rw [ht]
        simp only [hh, if_true]
        exact ih hcp.2 (fun m' hm' => hccn m' (by simp [hm']))
    · simp only [counterPattern, hh, Bool.false_eq_true, if_false] at hcp
      refine ⟨?_, ?_, ?_⟩
      · rw [ht]
        simp only [hh, Bool.false_eq_true, if_false]
        exact hcp.1.symm
      · rw [ht]
        exact hccn m (by simp)
      · rw [ht]
        simp only [hh, Bool.false_eq_true, if_false]
        exact ih hcp.2 (fun m' hm' => hccn m' (by simp [hm']))

theorem applyTargets_cf_pointwise {g : CPVRChannelGroup} {u s : Bool}
    {mode : RenumberMode} {seq : List CPVRChannelGroupMember} {c : Nat}
    (hcf : u = true ∨ (isInternalGroup g = false ∧ s = false))
    {m' : CPVRChannelGroupMember} (hm : m' ∈ applyTargets g u s mode seq c) :
    ptF g u m' = m'.channelNumber ∧ ccnOf g m' = m'.clientChannelNumber := by
  rcases mem_applyTargets hm with ⟨m, c', _, rfl⟩
  rw [renumberTarget_counter_cf g mode c' m hcf]
  dsimp only
  constructor
  · by_cases hu : u = true
    · subst hu
      exact ccnOf_write g m _
    · have hu' : u = false := by simpa using hu
      subst hu'
      rfl
  · exact ccnOf_write g m _

theorem leNum_total (a b : CPVRChannelGroupMember) :
    leOf sortByChannelNumberLt a b = true ∨ leOf sortByChannelNumberLt b a = true := by
  simp only [leOf, sortByChannelNumberLt, CPVRChannelNumber.numLt, Bool.not_eq_true',
    Bool.or_eq_false_iff, decide_eq_false_iff_not, Bool.and_eq_false_iff,
    beq_eq_false_iff_ne, ne_eq]
  omega

theorem leNum_trans (a b c : CPVRChannelGroupMember)
    (h1 : leOf sortByChannelNumberLt a b = true)
    (h2 : leOf sortByChannelNumberLt b c = true) :
    leOf sortByChannelNumberLt a c = true := by
  simp only [leOf, sortByChannelNumberLt, CPVRChannelNumber.numLt, Bool.not_eq_true',
    Bool.or_eq_false_iff, decide_eq_false_iff_not, Bool.and_eq_false_iff,
    beq_eq_false_iff_ne, ne_eq] at h1 h2 ⊢
  omega

theorem sortOp_nonbo (X : CPVRChannelGroup)
    (hXp : X.preventSortAndRenumber = false)
    (hXbo : X.usingBackendChannelOrder = false) :
    sortOp X = { X with
      sortedMembers := sortMembers (leOf sortByChannelNumberLt) X.sortedMembers } := by
  rw [sortOp, if_neg (by simp [hXbo]), sortByChannelNumber, if_pos (by rw [hXp]; rfl)]

/-- The state `SortAndRenumber` leaves behind when the group is neither
prevented nor sorting by backend order: sort by number, apply the computed
numbers, sort again. -/
def firstPass (X : CPVRChannelGroup) (env : Env) : CPVRChannelGroup :=
  { X with
    sortedMembers := sortMembers (leOf sortByChannelNumberLt)
      (applyTargets
        { X with sortedMembers := sortMembers (leOf sortByChannelNumberLt) X.sortedMembers }
        (usingBackendChannelNumbersEnv env)
        (env.settingStartGroupChannelNumbersFromOne &&
          !(usingBackendChannelNumbersEnv env))
        RenumberMode.NORMAL
        (sortMembers (leOf sortByChannelNumberLt) X.sortedMembers) 0)
    members := (renumberLoop
        { X with sortedMembers := sortMembers (leOf sortByChannelNumberLt) X.sortedMembers }
        (usingBackendChannelNumbersEnv env)
        (env.settingStartGroupChannelNumbersFromOne &&
          !(usingBackendChannelNumbersEnv env))
        RenumberMode.NORMAL
        (sortMembers (leOf sortByChannelNumberLt) X.sortedMembers) X.members false 0).2.1 }

theorem sortAndRenumber_shape (X : CPVRChannelGroup) (env : Env)
    (hXp : X.preventSortAndRenumber = false)
    (hXbo : X.usingBackendChannelOrder = false) :
    (sortAndRenumber X env).1 = firstPass X env := by
  rw [sortAndRenumber, if_neg (by simp [hXp]), sortOp_nonbo X hXp hXbo, renumber,
    if_neg (by simp [hXp])]
  dsimp only
  rw [renumberLoop_fst_applyTargets]
  rw [sortOp_nonbo { X with
      sortedMembers := applyTargets
        { X with sortedMembers := sortMembers (leOf sortByChannelNumberLt) X.sortedMembers }
        (usingBackendChannelNumbersEnv env)
        (env.settingStartGroupChannelNumbersFromOne &&
          !(usingBackendChannelNumbersEnv env))
        RenumberMode.NORMAL
        (sortMembers (leOf sortByChannelNumberLt) X.sortedMembers) 0
      members := (renumberLoop
        { X with sortedMembers := sortMembers (leOf sortByChannelNumberLt) X.sortedMembers }
        (usingBackendChannelNumbersEnv env)
        (env.settingStartGroupChannelNumbersFromOne &&
          !(usingBackendChannelNumbersEnv env))
        RenumberMode.NORMAL
        (sortMembers (leOf sortByChannelNumberLt) X.sortedMembers) X.members false 0).2.1 }
    hXp hXbo]
  rfl

theorem sortAndRenumber_fixpoint (X : CPVRChannelGroup) (env : Env)
    (hXp : X.preventSortAndRenumber = false)
    (hXbo : X.usingBackendChannelOrder = false)
    (hfix : sortMembers (leOf sortByChannelNumberLt) X.sortedMembers = X.sortedMembers)
    (hstab : numTargetsStable X (usingBackendChannelNumbersEnv env)
      (env.settingStartGroupChannelNumbersFromOne &&
        !(usingBackendChannelNumbersEnv env))
      RenumberMode.NORMAL X.sortedMembers 0) :
    sortAndRenumber X env = (X, false) := by
  have hsop : sortOp X = X := by
    rw [sortOp_nonbo X hXp hXbo, hfix]
  rw [sortAndRenumber, if_neg (by simp [hXp]), hsop, renumber,
    if_neg (by simp [hXp])]
  dsimp only
  rw [renumberLoop_of_stable hstab]
  show (sortOp X, false) = (X, false)
  rw [hsop]

/-! ### Concrete fixtures for witnesses and counterexamples -/

def chA : CPVRChannel := ⟨1, 1, "a", false⟩

def chB : CPVRChannel := ⟨1, 2, "b", false⟩

/-- A baseline environment: sync on, all numbering settings off, one client,
no database, no fetched members. -/
def env0 : Env :=
  { settingSyncChannelGroups := true
    settingUseBackendChannelNumbers := false
    settingUseBackendChannelNumbersAlways := false
    settingStartGroupChannelNumbersFromOne := false
    enabledClientAmount := 1
    dbPresent := false
    dbPersistOk := false
    clientPriorities := []
    fetchedMembers := []
    fetchFailedClients := [] }

def memA : CPVRChannelGroupMember := ⟨chA, ⟨7, 0⟩, ⟨7, 0⟩, 0, 0⟩

def memAacg : CPVRChannelGroupMember := ⟨chA, ⟨7, 0⟩, ⟨7, 0⟩, 0, 0⟩

def memBacg : CPVRChannelGroupMember := ⟨chB, ⟨3, 0⟩, ⟨4, 0⟩, 0, 0⟩

/-- A user-defined group holding channel A with group number 7; the
all-channels group knows A (number 7) and B (number 3, client number 4). -/
def gUser : CPVRChannelGroup :=
  { groupId := 1
    groupType := PVR_GROUP_TYPE_USER_DEFINED
    sortedMembers := [memA]
    members := [(chA.storageId, memA)]
    failedClients := []
    loaded := true
    changed := false
    preventSortAndRenumber := false
    usingBackendChannelOrder := false
    usingBackendChannelNumbers := false
    startGroupChannelNumbersFromOne := false
    syncChannelGroups := true
    acgMembers := [(chA.storageId, memAacg), (chB.storageId, memBacg)] }

/-- `gUser` with the prevent-sort-and-renumber flag raised. -/
def gPrevented : CPVRChannelGroup := { gUser with preventSortAndRenumber := true }

/-- `gUser` with client 1 in the failed-clients set. -/
def gFailed : CPVRChannelGroup := { gUser with failedClients := [1] }

/-- A loaded, dirty, previously persisted group. -/
def gDirty : CPVRChannelGroup := { gUser with changed := true, groupId := 5 }

/-- An environment whose database is present but whose persist call fails. -/
def envDbFail : Env := { env0 with dbPresent := true, dbPersistOk := false }

/-- A never-persisted, never-loaded group. -/
def gFresh : CPVRChannelGroup := { gUser with groupId := INVALID_GROUP_ID, loaded := false }

/-! ### C1 -/

/-- C1, counterexample: on a concrete group with the prevent-sort-and-renumber
flag set, `Renumber` leaves the state unchanged but returns `true` — the value
by which `Renumber` otherwise signals that something changed (its result is
accumulated from detected differences and starts out `false`) — and not the
"no change" value `false` the claim asserts. -/
theorem c1_counterexample :
    renumber gPrevented RenumberMode.NORMAL env0 = (gPrevented, true) ∧
    (renumber gPrevented RenumberMode.NORMAL env0).2 ≠ false := by
  constructor
  · rfl
  · decide

/-- C1, amended: for every group with the prevent-sort-and-renumber flag set,
`Renumber(mode)` (and hence `SortAndRenumber()`) leaves the member sequence
and all members' numbers unchanged, but returns `true` — the value that
otherwise means "changed" — rather than the value meaning "no change". -/
theorem c1_amended (g : CPVRChannelGroup) (mode : RenumberMode) (env : Env)
    (h : g.preventSortAndRenumber = true) :
    renumber g mode env = (g, true) ∧ sortAndRenumber g env = (g, true) := by
  constructor
  · simp [renumber, h]
  · simp [sortAndRenumber, h]

/-- C1, witness for the amended theorem at a concrete prevented group. -/
theorem c1_witness :
    renumber gPrevented RenumberMode.IGNORE_NUMBERING_FROM_ONE env0 = (gPrevented, true) ∧
    sortAndRenumber gPrevented env0 = (gPrevented, true) :=
  c1_amended gPrevented RenumberMode.IGNORE_NUMBERING_FROM_ONE env0 (by decide)

/-! ### C2 -/

/-- C2, counterexample: `gUser` is user-defined and the sync-groups setting is
enabled in `env0`, so per the claim `Update` should fetch and reconcile — the
reconciliation against the (empty) fetched snapshot would remove channel A —
yet `Update` is a no-op returning success. -/
theorem c2_counterexample :
    update gUser env0 = (gUser, [], true) ∧
    (updateGroupEntries { gUser with failedClients := env0.fetchFailedClients }
        env0.fetchedMembers env0).removed = [chA] := by
  constructor
  · rfl
  · decide

/-- C2, amended: `Update(channelsToRemove)` fetches from the backends and
reconciles precisely when the group is NOT user-defined AND the sync-groups
setting is enabled; when the group is user-defined or the setting is disabled
it is a no-op returning success. -/
theorem c2_amended (g : CPVRChannelGroup) (env : Env) :
    (g.groupType = PVR_GROUP_TYPE_USER_DEFINED ∨ env.settingSyncChannelGroups = false →
      update g env = (g, [], true)) ∧
    (g.groupType ≠ PVR_GROUP_TYPE_USER_DEFINED → env.settingSyncChannelGroups = true →
      update g env =
        (let r := updateGroupEntries { g with failedClients := env.fetchFailedClients }
          env.fetchedMembers env
         (r.state, r.removed, r.ok))) := by
  constructor
  · intro h
    rcases h with h | h <;> simp [update, h]
  · intro h1 h2
    simp [update, h1, h2]

/-- C2, witness for the amended theorem at the concrete user-defined group. -/
theorem c2_witness : update gUser env0 = (gUser, [], true) :=
  (c2_amended gUser env0).1 (Or.inl (by decide))

/-! ### C3 -/

/-- C3, counterexample: `gFailed` holds channel A, whose client 1 is in the
failed-clients set, and the snapshot is empty. The claim says A is retained;
in fact `RemoveDeletedChannels` erases it from both the map and the sequence —
it is merely not reported in the removed-channels result. -/
theorem c3_counterexample :
    removeDeletedChannels gFailed [] =
      ({ gFailed with sortedMembers := [], members := [] }, []) ∧
    gFailed.sortedMembers ≠ [] := by
  constructor
  · decide
  · decide

/-- C3, amended: a member whose channel is missing from the reconciliation
snapshot is removed from both the keyed map and the ordered sequence whether
or not its backend failed; the failed-backend set only suppresses reporting:
every channel in the removed-channels result is missing from the snapshot and
belongs to a backend that is NOT in the failed set (so a member of a failed
backend is never reported as removed). -/
theorem c3_amended (g : CPVRChannelGroup)
    (snap : List (StorageId × CPVRChannelGroupMember)) :
    (∀ m ∈ (removeDeletedChannels g snap).1.sortedMembers,
        (findMember snap m.channel.storageId).isSome = true) ∧
    (∀ m ∈ g.sortedMembers, findMember snap m.channel.storageId = none →
        findMember (removeDeletedChannels g snap).1.members m.channel.storageId = none) ∧
    (∀ ch ∈ (removeDeletedChannels g snap).2,
        findMember snap ch.storageId = none ∧ g.failedClients.contains ch.clientId = false) := by
  refine ⟨?_, ?_, ?_⟩
  · exact fun m hm => removeDeletedChannelsLoop_fst_mem hm
  · exact fun m hm hmiss => removeDeletedChannelsLoop_member_gone hm hmiss
  · exact fun ch hch => removeDeletedChannelsLoop_removed_spec hch

/-- C3, witness: concrete instances of the amended theorem — the surviving
member of a snapshot containing A, the map erasure for a missing member, and a
reported removal coming from a non-failed backend. -/
theorem c3_witness :
    (findMember [] memA.channel.storageId = none ∧
      gUser.failedClients.contains memA.channel.clientId = false) ∧
    findMember (removeDeletedChannels gFailed []).1.members memA.channel.storageId = none :=
  ⟨(c3_amended gUser []).2.2 memA.channel (by decide),
   (c3_amended gFailed []).2.1 memA (by decide) (by decide)⟩

/-! ### C4 -/

/-- An environment activating the backend-numbers policy (one enabled
client). -/
def envBN : Env := { env0 with settingUseBackendChannelNumbers := true }

/-- C4: after `SortAndRenumber()` completes (not prevented), if the group uses
the backend-numbers policy (effective setting as read by `Renumber`), every
member's group-local channel number equals its backend-native (client)
channel number. -/
theorem c4_backend_numbers (g : CPVRChannelGroup) (env : Env)
    (hP : g.preventSortAndRenumber = false)
    (hubcn : usingBackendChannelNumbersEnv env = true) :
    ∀ m ∈ (sortAndRenumber g env).1.sortedMembers,
      m.channelNumber = m.clientChannelNumber := by
  intro m hm
  rw [sortAndRenumber] at hm
  simp only [hP, Bool.false_eq_true, if_false] at hm
  rw [renumber] at hm
  simp only [(sortOp_fields g).1, hP, Bool.false_eq_true, if_false, hubcn] at hm
  rw [mem_sortOp] at hm
  exact renumberLoop_ubcn_mem hm

/-- C4, witness: the concrete group under the backend-numbers policy. -/
theorem c4_witness : memA.channelNumber = memA.clientChannelNumber :=
  c4_backend_numbers gUser envBN (by decide) (by decide) memA (by decide)

/-! ### C5 -/

def memAi : CPVRChannelGroupMember := ⟨chA, ⟨1, 0⟩, ⟨0, 0⟩, 0, 0⟩

def memBi : CPVRChannelGroupMember := ⟨chB, ⟨2, 0⟩, ⟨5, 0⟩, 0, 0⟩

def memAiacg : CPVRChannelGroupMember := ⟨chA, ⟨1, 0⟩, ⟨9, 0⟩, 0, 0⟩

/-- An all-channels group sorting by backend order, holding channel A (invalid
client number; the all-channels view supplies (9,0)) and channel B (client
number (5,0)). -/
def gBackendOrder : CPVRChannelGroup :=
  { groupId := 1
    groupType := PVR_GROUP_TYPE_INTERNAL
    sortedMembers := [memAi, memBi]
    members := [(chA.storageId, memAi), (chB.storageId, memBi)]
    failedClients := []
    loaded := true
    changed := false
    preventSortAndRenumber := false
    usingBackendChannelOrder := true
    usingBackendChannelNumbers := false
    startGroupChannelNumbersFromOne := false
    syncChannelGroups := true
    acgMembers := [(chA.storageId, memAiacg)] }

/-- C5, counterexample: with the backend-order policy active, the first
`SortAndRenumber` on `gBackendOrder` inherits A's client number (9,0) from the
all-channels view, which changes the client-number sort keys; the closing sort
reorders to [B, A], so the second call renumbers again (B gets 1, A gets 2),
reports "changed", and alters the state. -/
theorem c5_counterexample :
    (sortAndRenumber (sortAndRenumber gBackendOrder env0).1 env0).2 = true ∧
    (sortAndRenumber (sortAndRenumber gBackendOrder env0).1 env0).1
      ≠ (sortAndRenumber gBackendOrder env0).1 := by
  refine ⟨by decide, by decide⟩

theorem renumberTarget_congr {g g' : CPVRChannelGroup}
    (ha : g.acgMembers = g'.acgMembers) (ht : g.groupType = g'.groupType)
    (u s : Bool) (mode : RenumberMode) (c : Nat) (m : CPVRChannelGroupMember) :
    renumberTarget g u s mode c m = renumberTarget g' u s mode c m := by
  simp only [renumberTarget, acgClientChannelNumber, acgChannelNumber,
    isInternalGroup, ha, ht]

theorem numTargetsStable_congr {g g' : CPVRChannelGroup}
    (ha : g.acgMembers = g'.acgMembers) (ht : g.groupType = g'.groupType)
    {u s : Bool} {mode : RenumberMode} :
    ∀ {seq : List CPVRChannelGroupMember} {c : Nat},
      numTargetsStable g' u s mode seq c → numTargetsStable g u s mode seq c := by
  intro seq
  induction seq with
  | nil =>
    intro c _
    trivial
  | cons m rest ih =>
    intro c h
    obtain ⟨h1, h2, h3⟩ := h
    rw [numTargetsStable, renumberTarget_congr ha ht u s mode c m]
    exact ⟨h1, h2, ih h3⟩

/-- After a pass of `Renumber`'s loop followed by the closing sort by channel
number, every member already carries the numbers a fresh pass would compute. -/
theorem stable_sorted_applyTargets (G : CPVRChannelGroup) (u s : Bool)
    (seq : List CPVRChannelGroupMember) :
    numTargetsStable G u s RenumberMode.NORMAL
      (sortMembers (leOf sortByChannelNumberLt)
        (applyTargets G u s RenumberMode.NORMAL seq 0)) 0 := by
  by_cases hU : u = true
  · refine stable_of_cf (Or.inl hU) ?_
    intro m' hm'
    exact applyTargets_cf_pointwise (Or.inl hU) (mem_sortMembers.mp hm')
  · have hU' : u = false := by simpa using hU
    by_cases hcc : isInternalGroup G = true ∨ s = true
    · refine stable_of_cp hU' hcc ?_ ?_
      · exact cp_sorted_perm (cp_applyTargets hU' hcc seq 0) (sortMembers_perm _ _)
          (pairwise_sortMembers leNum_trans leNum_total _)
      · intro m' hm'
        exact mem_applyTargets_ccnOf (mem_sortMembers.mp hm')
    · push_neg at hcc
      have hint : isInternalGroup G = false := by simpa using hcc.1
      have hs : s = false := by simpa using hcc.2
      refine stable_of_cf (Or.inr ⟨hint, hs⟩) ?_
      intro m' hm'
      exact applyTargets_cf_pointwise (Or.inr ⟨hint, hs⟩) (mem_sortMembers.mp hm')

/-- C5, amended: when the group does NOT use the backend channel order (its
cached backend-order flag is false, so sorting is by group-local number) and
sort-and-renumber is not prevented, `SortAndRenumber()` is idempotent: an
immediately repeated call with no intervening mutation leaves the ordering and
all numbers unchanged and reports "no change". With backend order active the
renumbering can alter the client-number sort keys and a second call may
reorder and renumber again (see the counterexample). -/
theorem c5_idempotent (g : CPVRChannelGroup) (env : Env)
    (hP : g.preventSortAndRenumber = false)
    (hBO : g.usingBackendChannelOrder = false) :
    sortAndRenumber (sortAndRenumber g env).1 env = ((sortAndRenumber g env).1, false) := by
  rw [sortAndRenumber_shape g env hP hBO]
  refine sortAndRenumber_fixpoint (firstPass g env) env hP hBO ?_ ?_
  · exact sortMembers_of_pairwise (pairwise_sortMembers leNum_trans leNum_total _)
  · exact @numTargetsStable_congr (firstPass g env)
      { g with sortedMembers := sortMembers (leOf sortByChannelNumberLt) g.sortedMembers }
      rfl rfl (usingBackendChannelNumbersEnv env)
      (env.settingStartGroupChannelNumbersFromOne &&
        !(usingBackendChannelNumbersEnv env))
      RenumberMode.NORMAL (firstPass g env).sortedMembers 0
      (stable_sorted_applyTargets
        { g with sortedMembers := sortMembers (leOf sortByChannelNumberLt) g.sortedMembers }
        (usingBackendChannelNumbersEnv env)
        (env.settingStartGroupChannelNumbersFromOne &&
          !(usingBackendChannelNumbersEnv env))
        (sortMembers (leOf sortByChannelNumberLt) g.sortedMembers))

/-- C5, witness for the amended theorem: the concrete user group (not using
backend order) reaches a fixpoint after one call. -/
theorem c5_witness :
    sortAndRenumber (sortAndRenumber gUser env0).1 env0
      = ((sortAndRenumber gUser env0).1, false) :=
  c5_idempotent gUser env0 (by decide) (by decide)

/-! ### C6 -/

/-- C6: starting from a well-formed dual-view index (map entries keyed by
their member's storage id, no duplicate keys, map keys in bijection with the
sequence's storage ids), every public mutation — `AddToGroup`,
`RemoveFromGroup`, the reconciliation removal pass and `Unload` — preserves
well-formedness, and in particular the keyed map and the ordered sequence of
the resulting state have equal sizes. -/
theorem c6_dual_view_invariant (g : CPVRChannelGroup) (ch ch2 : CPVRChannel)
    (channelNumber ccn : CPVRChannelNumber) (iOrder : Int) (bU : Bool) (env : Env)
    (snap : List (StorageId × CPVRChannelGroupMember)) (h : Wf g) (ha : AcgWf g) :
    (Wf (addToGroup g ch channelNumber iOrder bU ccn env).1 ∧
      (addToGroup g ch channelNumber iOrder bU ccn env).1.members.length =
        (addToGroup g ch channelNumber iOrder bU ccn env).1.sortedMembers.length) ∧
    (Wf (removeFromGroup g ch2 env).1 ∧
      (removeFromGroup g ch2 env).1.members.length =
        (removeFromGroup g ch2 env).1.sortedMembers.length) ∧
    (Wf (removeDeletedChannels g snap).1 ∧
      (removeDeletedChannels g snap).1.members.length =
        (removeDeletedChannels g snap).1.sortedMembers.length) ∧
    (Wf (unload g) ∧
      (unload g).members.length = (unload g).sortedMembers.length) := by
  have h1 := @wf_addToGroup g ch channelNumber iOrder bU ccn env h ha
  have h2 := @wf_removeFromGroup g ch2 env h
  have h3 := @wf_removeDeletedChannels g snap h
  have h4 := wf_unload g
  exact ⟨⟨h1, wf_length h1⟩, ⟨h2, wf_length h2⟩, ⟨h3, wf_length h3⟩,
    ⟨h4, wf_length h4⟩⟩

/-- C6, witness: the concrete well-formed user group under an add (channel B),
a remove (channel A), a reconciliation removal with the empty snapshot, and an
unload. -/
theorem c6_witness :
    (Wf (addToGroup gUser chB ⟨0, 0⟩ 0 false ⟨0, 0⟩ env0).1 ∧
      (addToGroup gUser chB ⟨0, 0⟩ 0 false ⟨0, 0⟩ env0).1.members.length =
        (addToGroup gUser chB ⟨0, 0⟩ 0 false ⟨0, 0⟩ env0).1.sortedMembers.length) ∧
    (Wf (removeFromGroup gUser chA env0).1 ∧
      (removeFromGroup gUser chA env0).1.members.length =
        (removeFromGroup gUser chA env0).1.sortedMembers.length) ∧
    (Wf (removeDeletedChannels gUser []).1 ∧
      (removeDeletedChannels gUser []).1.members.length =
        (removeDeletedChannels gUser []).1.sortedMembers.length) ∧
    (Wf (unload gUser) ∧
      (unload gUser).members.length = (unload gUser).sortedMembers.length) :=
  c6_dual_view_invariant gUser chB chA ⟨0, 0⟩ ⟨0, 0⟩ 0 false env0 []
    (by decide) (by decide)

/-! ### C7 -/

/-- C7: a member whose channel is missing from the reconciliation snapshot and
whose backend is NOT in the failed set is removed from both the keyed map and
the ordered sequence (never to reappear over the whole `UpdateGroupEntries`
pipeline), its channel is reported in the removed-channels list handed back to
the caller, and the engine's aggregate "changed" outcome is true. -/
theorem c7_stale_removal (g : CPVRChannelGroup)
    (snap : List (StorageId × CPVRChannelGroupMember)) (env : Env)
    (m : CPVRChannelGroupMember) (hW : Wf g) (hA : AcgWf g)
    (hm : m ∈ g.sortedMembers)
    (hmiss : findMember snap m.channel.storageId = none)
    (hfail : g.failedClients.contains m.channel.clientId = false) :
    m.channel ∈ (updateGroupEntries g snap env).removed ∧
    (updateGroupEntries g snap env).changedResult = true ∧
    findMember (updateGroupEntries g snap env).state.members m.channel.storageId
      = none ∧
    ∀ m' ∈ (updateGroupEntries g snap env).state.sortedMembers,
      m'.channel.storageId ≠ m.channel.storageId := by
  have hrem : m.channel ∈
      (removeDeletedChannels { g with preventSortAndRenumber := true } snap).2 :=
    rdcLoop_removed_mem hm hmiss hfail
  have hIsE : (removeDeletedChannels { g with preventSortAndRenumber := true }
      snap).2.isEmpty = false := by
    rcases he : (removeDeletedChannels { g with preventSortAndRenumber := true }
        snap).2 with _ | ⟨c, cs⟩
    · rw [he] at hrem
      simp at hrem
    · rfl
  have hW1 : Wf (removeDeletedChannels { g with preventSortAndRenumber := true }
      snap).1 := wf_removeDeletedChannels hW
  have hA1 : AcgWf (removeDeletedChannels { g with preventSortAndRenumber := true }
      snap).1 := hA
  have hnone1 : findMember
      (removeDeletedChannels { g with preventSortAndRenumber := true }
        snap).1.members m.channel.storageId = none :=
    removeDeletedChannelsLoop_member_gone hm hmiss
  have hseq1 : ∀ m' ∈ (removeDeletedChannels { g with preventSortAndRenumber := true }
      snap).1.sortedMembers, m'.channel.storageId ≠ m.channel.storageId := by
    intro m' hm' heq
    have : m' ∈ (removeDeletedChannelsLoop snap g.failedClients g.sortedMembers
        g.members).1 := hm'
    rw [rdcLoop_fst_eq] at this
    have hsome := (List.mem_filter.mp this).2
    rw [heq, hmiss] at hsome
    simp at hsome
  have hks : ∀ p ∈ snap, p.1 ≠ m.channel.storageId := findMember_none_forall hmiss
  have hloop := @aauLoop_no_return (g.members.isEmpty || g.usingBackendChannelOrder)
    env m.channel.storageId snap hks
    (removeDeletedChannels { g with preventSortAndRenumber := true } snap).1 false
    hW1 hA1 hnone1 hseq1
  -- after AddAndUpdateChannels (which ends with SortAndRenumber)
  have hnone2 : findMember (addAndUpdateChannels
      (removeDeletedChannels { g with preventSortAndRenumber := true } snap).1 snap
      (g.members.isEmpty || g.usingBackendChannelOrder) env).1.members
      m.channel.storageId = none := by
    rw [findMember_eq_none_iff]
    show m.channel.storageId ∉ ((sortAndRenumber _ env).1.members.map Prod.fst)
    rw [sortAndRenumber_members_keys]
    exact findMember_eq_none_iff.mp hloop.1
  have hseq2 : ∀ m' ∈ (addAndUpdateChannels
      (removeDeletedChannels { g with preventSortAndRenumber := true } snap).1 snap
      (g.members.isEmpty || g.usingBackendChannelOrder) env).1.sortedMembers,
      m'.channel.storageId ≠ m.channel.storageId := by
    intro m' hm'
    have hsid := sortAndRenumber_sid_mem hm'
    rcases List.mem_map.mp hsid with ⟨m0, hm0, heq⟩
    rw [← heq]
    exact hloop.2 m0 hm0
  -- after UpdateClientPriorities (on the state with the prevent flag cleared)
  have hnone3 : findMember (updateClientPriorities
      { (addAndUpdateChannels
          (removeDeletedChannels { g with preventSortAndRenumber := true } snap).1
          snap (g.members.isEmpty || g.usingBackendChannelOrder) env).1 with
        preventSortAndRenumber := false } env).1.members m.channel.storageId
      = none := by
    rw [findMember_eq_none_iff]
    show m.channel.storageId ∉
      ((updateClientPrioritiesLoop _ env _ _).2.1.map Prod.fst)
    rw [ucpLoop_keys]
    exact findMember_eq_none_iff.mp hnone2
  have hseq3 : ∀ m' ∈ (updateClientPriorities
      { (addAndUpdateChannels
          (removeDeletedChannels { g with preventSortAndRenumber := true } snap).1
          snap (g.members.isEmpty || g.usingBackendChannelOrder) env).1 with
        preventSortAndRenumber := false } env).1.sortedMembers,
      m'.channel.storageId ≠ m.channel.storageId := by
    intro m' hm'
    have hin : m'.channel.storageId ∈
        ((updateClientPrioritiesLoop _ env _ _).1.map (fun x => x.channel.storageId)) :=
      List.mem_map.mpr ⟨m', hm', rfl⟩
    rw [ucpLoop_fst_sids] at hin
    rcases List.mem_map.mp hin with ⟨m0, hm0, heq⟩
    rw [← heq]
    exact hseq2 m0 hm0
  -- the final sort-and-renumber plus persist
  unfold updateGroupEntries
  dsimp only
  split
  · next htrue =>
    refine ⟨hrem, ?_, ?_, ?_⟩
    · exact htrue
    · rw [findMember_eq_none_iff, (persist_membership _ _).1,
        sortAndRenumber_members_keys]
      exact findMember_eq_none_iff.mp hnone3
    · intro m' hm'
      rw [(persist_membership _ _).2] at hm'
      have hsid := sortAndRenumber_sid_mem hm'
      rcases List.mem_map.mp hsid with ⟨m0, hm0, heq⟩
      rw [← heq]
      exact hseq3 m0 hm0
  · next hfalse =>
    exfalso
    apply hfalse
    rw [hIsE]
    simp

/-- C7, witness: the concrete user group against the empty snapshot with no
failed backends. -/
theorem c7_witness :
    memA.channel ∈ (updateGroupEntries gUser [] env0).removed ∧
    (updateGroupEntries gUser [] env0).changedResult = true ∧
    findMember (updateGroupEntries gUser [] env0).state.members
      memA.channel.storageId = none ∧
    ∀ m' ∈ (updateGroupEntries gUser [] env0).state.sortedMembers,
      m'.channel.storageId ≠ memA.channel.storageId :=
  c7_stale_removal gUser [] env0 memA (by decide) (by decide) (by decide)
    (by decide) (by decide)

/-! ### C8 -/

/-- C8, counterexample: `gUser`'s maximum group-local number is 7, channel B
is not a member, yet after `AppendToGroup(B)` the new member's group-local
number is 3, not 8: the implicit `SortAndRenumber` immediately reassigned the
freshly computed number 8 with the number inherited from the all-channels
group (policy: no start-from-one, no backend numbers). -/
theorem c8_counterexample :
    maxChannelNumber gUser = 7 ∧ isGroupMember gUser chB = false ∧
    (findMember (appendToGroup gUser chB env0).1.members chB.storageId).map
      (fun m => m.channelNumber) = some ⟨3, 0⟩ ∧
    (⟨3, 0⟩ : CPVRChannelNumber) ≠ ⟨8, 0⟩ := by
  refine ⟨by decide, by decide, by decide, by decide⟩

/-- C8, amended: for a channel not yet in the group whose "real" member
lookup succeeds, `AppendToGroup` adds the channel as a new member carrying
group-local number M+1 (M the current maximum), i.e. the state handed to the
implicit `SortAndRenumber` contains exactly the old members plus that new
member — but the renumbering may immediately reassign the number according to
the active numbering policy, so the final number need not be M+1; the channel
does end up a member of the group. -/
theorem c8_amended (g : CPVRChannelGroup) (ch : CPVRChannel) (env : Env)
    (rm : CPVRChannelGroupMember) (hmem : isGroupMember g ch = false)
    (hrm : (if isInternalGroup g then findMember g.members ch.storageId
            else findMember g.acgMembers ch.storageId) = some rm)
    (hsid : rm.channel.storageId = ch.storageId) :
    appendToGroup g ch env =
      ((sortAndRenumber { g with
          sortedMembers := g.sortedMembers ++
            [⟨rm.channel, ⟨maxChannelNumber g + 1, 0⟩, rm.clientChannelNumber,
              rm.clientPriority, 0⟩]
          members := g.members ++
            [(rm.channel.storageId,
              ⟨rm.channel, ⟨maxChannelNumber g + 1, 0⟩, rm.clientChannelNumber,
                rm.clientPriority, 0⟩)] } env).1, true) ∧
    isGroupMember (appendToGroup g ch env).1 ch = true := by
  have hfind : findMember g.members ch.storageId = none := by
    rcases h : findMember g.members ch.storageId with _ | m
    · rfl
    · rw [isGroupMember, h] at hmem
      simp at hmem
  have hmain : appendToGroup g ch env =
      ((sortAndRenumber { g with
          sortedMembers := g.sortedMembers ++
            [⟨rm.channel, ⟨maxChannelNumber g + 1, 0⟩, rm.clientChannelNumber,
              rm.clientPriority, 0⟩]
          members := g.members ++
            [(rm.channel.storageId,
              ⟨rm.channel, ⟨maxChannelNumber g + 1, 0⟩, rm.clientChannelNumber,
                rm.clientPriority, 0⟩)] } env).1, true) := by
    rw [appendToGroup, addToGroup, hmem, hrm]
    have hins : insertPair g.members rm.channel.storageId
        ⟨rm.channel, ⟨maxChannelNumber g + 1, 0⟩, rm.clientChannelNumber,
          rm.clientPriority, 0⟩ =
        g.members ++
          [(rm.channel.storageId,
            ⟨rm.channel, ⟨maxChannelNumber g + 1, 0⟩, rm.clientChannelNumber,
              rm.clientPriority, 0⟩)] := by
      rw [insertPair, hsid, hfind]
      rfl
    simp only [CPVRChannelNumber.isValid, CPVRChannelNumber.getChannelNumber,
      CPVRChannelNumber.getSubChannelNumber, Nat.lt_irrefl, decide_eq_true_eq,
      Nat.succ_pos, Nat.zero_lt_succ, decide_eq_false_iff_not, Bool.not_true,
      if_true, if_false, hins]
    simp
  refine ⟨hmain, ?_⟩
  rw [hmain]
  rw [isGroupMember, findMember_isSome_iff, sortAndRenumber_members_keys]
  simp [hsid]

/-- C8, witness for the amended theorem: appending B to the concrete user
group goes through the all-channels member of B and inserts it with number
7 + 1 = 8 before the renumbering. -/
theorem c8_witness :
    appendToGroup gUser chB env0 =
      ((sortAndRenumber { gUser with
          sortedMembers := gUser.sortedMembers ++
            [⟨memBacg.channel, ⟨maxChannelNumber gUser + 1, 0⟩,
              memBacg.clientChannelNumber, memBacg.clientPriority, 0⟩]
          members := gUser.members ++
            [(memBacg.channel.storageId,
              ⟨memBacg.channel, ⟨maxChannelNumber gUser + 1, 0⟩,
                memBacg.clientChannelNumber, memBacg.clientPriority, 0⟩)] } env0).1,
        true) ∧
    isGroupMember (appendToGroup gUser chB env0).1 chB = true :=
  c8_amended gUser chB env0 memBacg (by decide) (by decide) (by decide)

/-! ### C9 -/

/-- C9, counterexample: `gDirty` is loaded, previously persisted and dirty;
the database is present but its persist call fails. The claim says the dirty
flag is left unchanged on failure; in fact `Persist` clears it and returns the
failure. -/
theorem c9_counterexample :
    persist gDirty envDbFail = ({ gDirty with changed := false }, false) ∧
    gDirty.changed = true := by
  constructor
  · decide
  · decide

/-- C9, amended: when `Persist` delegates (the group is loaded, or it has the
invalid never-persisted id), a present database leads to the dirty flag being
cleared REGARDLESS of whether the database write succeeds, with the write's
result returned; with no database reachable it returns failure and leaves the
membership and the dirty flag unchanged (though a never-persisted group is
still marked loaded). -/
theorem c9_amended (g : CPVRChannelGroup) (env : Env)
    (h : g.loaded = true ∨ g.groupId = INVALID_GROUP_ID) :
    (env.dbPresent = true →
      (persist g env).1.changed = false ∧ (persist g env).2 = env.dbPersistOk) ∧
    (env.dbPresent = false →
      (persist g env).2 = false ∧ (persist g env).1.changed = g.changed ∧
      (persist g env).1.members = g.members ∧
      (persist g env).1.sortedMembers = g.sortedMembers) := by
  have hguard : (!g.loaded && !(g.groupId = INVALID_GROUP_ID : Bool)) = false := by
    rcases h with h | h <;> simp [h]
  constructor
  · intro hdb
    by_cases hid : g.groupId = INVALID_GROUP_ID
    · simp [persist, hdb, hid]
    · have hl : g.loaded = true := by
        rcases h with h | h
        · exact h
        · exact absurd h hid
      simp [persist, hdb, hid, hl]
  · intro hdb
    by_cases hid : g.groupId = INVALID_GROUP_ID
    · simp [persist, hdb, hid]
    · have hl : g.loaded = true := by
        rcases h with h | h
        · exact h
        · exact absurd h hid
      simp [persist, hdb, hid, hl]

/-- C9, witness for the amended theorem: the dirty flag of the concrete dirty
group is cleared although the database write failed. -/
theorem c9_witness :
    (persist gDirty envDbFail).1.changed = false ∧
    (persist gDirty envDbFail).2 = envDbFail.dbPersistOk :=
  (c9_amended gDirty envDbFail (Or.inl (by decide))).1 (by decide)

/-! ### C10 -/

/-- C10: calling `Persist()` on a group whose id is the invalid
(never-persisted) id marks the group loaded, regardless of whether a database
is reachable or its write succeeds. -/
theorem c10_persist_marks_loaded (g : CPVRChannelGroup) (env : Env)
    (h : g.groupId = INVALID_GROUP_ID) : (persist g env).1.loaded = true := by
  by_cases hdb : env.dbPresent <;> simp [persist, h, hdb]

/-- C10, witness: the concrete never-persisted group is marked loaded by
`Persist` even though no database is present. -/
theorem c10_witness : (persist gFresh env0).1.loaded = true :=
  c10_persist_marks_loaded gFresh env0 (by decide)

end PVR
